import Mathlib

/-!
Verification of the ante header engine (header parsing / generation / update),
the column formatter, and the glob matcher, as a shallow embedding of the
TypeScript sources (src/core/formatter.ts, the header module, the glob module).
Strings are Lean Strings; JS numbers used as integers are Int or Nat as noted;
JS regular-expression matching is embedded as executable character-list
functions that implement the exact anchored patterns from the source, with the
backtracking order of the JS engine taken into account where it is observable.
-/

namespace Ante

/-- A contributor (config.generated.ts): a display name and an email address. -/
structure Contributor where
  name : String
  email : String
deriving DecidableEq, Repr

/-- Strategy for selecting contributors (config.generated.ts). -/
inductive ContributorSelection where
  | commits | lines | recent | manual
deriving DecidableEq, Repr

/-- Fully resolved configuration (config.generated.ts, ResolvedConfig).
width and the column offsets are JS numbers used as integers and take part in
signed subtraction in the formatter, so they are modelled as Int.
maxContributors is modelled as Nat (the spec fixes it as an integer that is
at least 0). The source fields named include and exclude are renamed
includeGlobs and excludeGlobs because include is a Lean keyword. -/
structure ResolvedConfig where
  width : Int
  separatorChar : String
  commentPrefix : String
  nameColumn : Int
  emailColumn : Int
  licenseUrlColumn : Int
  maintainerColumn : Int
  spdxLicense : String
  licenseUrl : String
  maintainerEmail : String
  maxContributors : Nat
  contributorSelection : ContributorSelection
  manualContributors : List Contributor
  includeGlobs : List String
  excludeGlobs : List String
deriving DecidableEq, Repr

/-- Column definition for formatted output (formatter.ts). position is a JS
number (may in principle be negative), hence Int. -/
structure Column where
  content : String
  position : Int
deriving DecidableEq, Repr

/-- A parsed copyright header (header module, interface ParsedHeader). -/
structure ParsedHeader where
  raw : String
  startLine : Nat
  endLine : Nat
  yearStart : Nat
  yearEnd : Nat
  contributors : List Contributor
  spdxLicense : Option String
  licenseUrl : Option String
  maintainerEmail : Option String
deriving DecidableEq, Repr

/-- Result of header validation (header module, interface HeaderValidation). -/
structure HeaderValidation where
  valid : Bool
  issues : List String
deriving DecidableEq, Repr

/-! ## Characters and strings

Helper functions modelling the JavaScript string primitives the source uses:
split on a newline, join with newlines, repeat, trim, toLowerCase, and the
character classes of the regular expressions involved. -/

/-- The JavaScript regular-expression white-space class (the class written
backslash-s), which is also the white-space set of String.prototype.trim:
tab, line feed, vertical tab, form feed, carriage return, space, no-break
space, ogham space mark, the en/em spaces U+2000 to U+200A, line separator,
paragraph separator, narrow no-break space, medium mathematical space,
ideographic space, and the byte-order mark. -/
def jsWS (c : Char) : Bool :=
  c == ' ' || c == '\t' || c == '\n' || c == '\x0b' || c == '\x0c' ||
  c == '\r' || c == '\u00A0' || c == '\u1680' ||
  (0x2000 ≤ c.toNat && c.toNat ≤ 0x200A) ||
  c == '\u2028' || c == '\u2029' || c == '\u202F' || c == '\u205F' ||
  c == '\u3000' || c == '\uFEFF'

/-- The JavaScript regular-expression dot: any character other than a line
terminator (line feed, carriage return, line separator, paragraph separator). -/
def isDotChar (c : Char) : Bool :=
  !(c == '\n' || c == '\r' || c == '\u2028' || c == '\u2029')

/-- Splits a list on a separator element; models String.prototype.split with a
one-character separator: the result is never empty, and splitting the empty
string yields one empty piece. -/
def splitOnSep (sep : Char) : List Char → List (List Char)
  | [] => [[]]
  | c :: cs =>
    match splitOnSep sep cs with
    | [] => [[]]
    | piece :: rest => if c == sep then [] :: piece :: rest else (c :: piece) :: rest

/-- Joins pieces with a separator element; models Array.prototype.join with a
one-character separator. -/
def joinWithSep (sep : Char) : List (List Char) → List Char
  | [] => []
  | [piece] => piece
  | piece :: rest => piece ++ sep :: joinWithSep sep rest

/-- content.split with a newline, as a list of line strings. -/
def strLines (s : String) : List String :=
  (splitOnSep '\n' s.data).map String.mk

/-- lines.join with a newline. -/
def joinLines (ls : List String) : String :=
  String.mk (joinWithSep '\n' (ls.map String.data))

/-- List repeated n times; models String.prototype.repeat at the character
level. -/
def listRepeat (l : List Char) : Nat → List Char
  | 0 => []
  | n + 1 => l ++ listRepeat l n

/-- s.repeat n for strings. -/
def strRepeat (s : String) (n : Nat) : String :=
  String.mk (listRepeat s.data n)

/-- A run of n spaces. -/
def spaces (n : Nat) : String :=
  strRepeat " " n

/-- s.toLowerCase, modelled characterwise with the ASCII lowering of
Char.toLower (the headers under verification are ASCII). -/
def strLower (s : String) : String :=
  String.mk (s.data.map Char.toLower)

/-- s.trim: strips the JS white-space set from both ends. -/
def strTrim (s : String) : String :=
  String.mk (((s.data.dropWhile jsWS).reverse.dropWhile jsWS).reverse)

/-- s.trimStart: strips the JS white-space set from the start. -/
def strTrimStart (s : String) : String :=
  String.mk (s.data.dropWhile jsWS)

/-- Decimal digit character, code 48 plus the digit value. -/
def digitChar (d : Nat) : Char :=
  Char.ofNat (48 + d)

/-- Numeric value of a decimal digit character. -/
def charVal (c : Char) : Nat :=
  c.toNat - 48

/-- Fuel-driven decimal printer; the fuel argument is structural so that the
definition evaluates by kernel reduction. -/
def natToDecAux : Nat → Nat → List Char
  | 0, _ => []
  | fuel + 1, n => if n < 10 then [digitChar n] else natToDecAux fuel (n / 10) ++ [digitChar (n % 10)]

/-- Decimal digit list of a natural number; models the JS template
interpolation of a nonnegative integer number. -/
def natToDecimal (n : Nat) : List Char :=
  natToDecAux (n + 1) n

/-- Decimal string of a natural number. -/
def natStr (n : Nat) : String :=
  String.mk (natToDecimal n)

/-! ## Line formatter (src/core/formatter.ts) -/

/-- The ordering the comparator a.position minus b.position induces. -/
def colLE (a b : Column) : Prop :=
  a.position ≤ b.position

instance : DecidableRel colLE := fun a b => Int.decLe a.position b.position

instance : IsTotal Column colLE := ⟨fun a b => Int.le_total a.position b.position⟩

instance : IsTrans Column colLE := ⟨fun _ _ _ => Int.le_trans⟩

/-- The stable ascending sort by position performed by columns.sort with the
comparator a.position minus b.position; ECMAScript requires
Array.prototype.sort to be stable, and for a consistent comparator the
stable sorted order is unique, so stable insertion sort computes it. -/
def sortCols (cols : List Column) : List Column :=
  List.insertionSort colLE cols

/-- The body of the formatLine loop (formatter.ts lines 40 to 58): walk the
sorted columns keeping the output built so far and the current position;
pad with spaces up to the column position, or, when the position has already
been reached or passed and the cursor is positive, insert a single space. -/
def formatLineGo : List Column → String → Int → String
  | [], res, _ => res
  | c :: rest, res, cur =>
    let padding := c.position - cur
    if 0 < padding then
      formatLineGo rest (res ++ spaces padding.toNat ++ c.content) (cur + padding + c.content.length)
    else if 0 < cur then
      formatLineGo rest (res ++ " " ++ c.content) (cur + 1 + c.content.length)
    else
      formatLineGo rest (res ++ c.content) (cur + c.content.length)

/-- formatLine (formatter.ts): sorts the columns by position and walks them
left to right. -/
def formatLine (cols : List Column) : String :=
  if cols.isEmpty then "" else formatLineGo (sortCols cols) "" 0

/-- generateSeparator (formatter.ts): the prefix followed by the fill string
repeated width minus prefix-length times, or the prefix alone when that count
is not positive. -/
def generateSeparator (width : Int) (char : String) (pre : String) : String :=
  let separatorLength : Int := width - pre.length
  if separatorLength ≤ 0 then pre else pre ++ strRepeat char separatorLength.toNat

/-- formatCopyrightLine (formatter.ts): the comment prefix (with the
Copyright (c) text and the year part when the year part is nonempty), the
name at nameColumn and the email at emailColumn. -/
def formatCopyrightLine (config : ResolvedConfig) (yearPart name email : String) : String :=
  let lineStart :=
    if yearPart ≠ "" then config.commentPrefix ++ " Copyright (c) " ++ yearPart
    else config.commentPrefix
  formatLine [⟨lineStart, 0⟩, ⟨name, config.nameColumn⟩, ⟨email, config.emailColumn⟩]

/-- formatSpdxLine (formatter.ts): the SPDX line with the license URL at
licenseUrlColumn and the maintainer email at maintainerColumn. -/
def formatSpdxLine (config : ResolvedConfig) : String :=
  let spdxPart := config.commentPrefix ++ " SPDX-License-Identifier: " ++ config.spdxLicense
  formatLine [⟨spdxPart, 0⟩, ⟨config.licenseUrl, config.licenseUrlColumn⟩,
    ⟨config.maintainerEmail, config.maintainerColumn⟩]

/-! ## Header engine: the line matchers

The header module recognizes lines with four anchored JS regular expressions.
Each one is embedded below as an executable function on the line's character
list. Where the JS engine's backtracking order is observable the functions
implement the preferred alternative; the accompanying comments record why the
other alternatives cannot produce a match that the preferred one misses. -/

/-- The separator pattern: two slashes followed by one or more of the
characters minus, equals, asterisk, anchored at both ends. -/
def isSeparatorData : List Char → Bool
  | '/' :: '/' :: rest =>
    !rest.isEmpty && rest.all (fun c => c == '-' || c == '=' || c == '*')
  | _ => false

/-- The separator test on a line string. -/
def isSeparator (l : String) : Bool :=
  isSeparatorData l.data

/-- Case-insensitive literal matcher: the pattern (given in lower case) must
match the input prefix up to ASCII lowering; returns the rest of the input.
Models a fixed-case literal inside a regular expression with the ignore-case
flag. -/
def matchCIlit : List Char → List Char → Option (List Char)
  | [], s => some s
  | p :: ps, c :: cs => if c.toLower == p then matchCIlit ps cs else none
  | _ :: _, [] => none

/-- Whether a maximal non-white-space token can be matched by one-or-more
non-space characters, an at sign, then one-or-more non-space characters: the
token must carry an at sign that is neither its first nor its last character.
When the pattern matches, greediness makes the match cover the whole token. -/
def emailTok (t : List Char) : Bool :=
  (t.drop 1).dropLast.contains '@'

/-- One backtracking step of the tail pattern: two-or-more white-space then a
non-space email token, tested at a fixed split point. The white-space run is
taken maximally (shorter runs leave a white-space character where the
token's first non-space character is required, so they can never succeed). -/
def checkGap (l : List Char) : Option String :=
  let w := l.takeWhile jsWS
  if w.length < 2 then none
  else
    let t := (l.drop w.length).takeWhile (fun c => !jsWS c)
    if emailTok t then some (String.mk t) else none

/-- The tail pattern of the copyright and contributor expressions: a lazy
one-or-more of dot, two-or-more white-space, then the email token, with the
lazy group tried shortest first exactly as the JS engine does. The
accumulator holds the group's characters consumed so far. -/
def findSplitGo (acc : List Char) : List Char → Option (String × String)
  | [] => none
  | c :: cs =>
    if isDotChar c then
      match checkGap cs with
      | some em => some (String.mk (acc ++ [c]), em)
      | none => findSplitGo (acc ++ [c]) cs
    else none

/-- Entry point of the tail pattern at the position right after the mandatory
white-space before the lazy group. -/
def findSplit (l : List Char) : Option (String × String) :=
  findSplitGo [] l

/-- Exactly four decimal digits, returning their value and the rest. A fifth
digit is legal here: the expression then fails later at the mandatory
white-space, which the callers model faithfully. -/
def digits4 : List Char → Option (Nat × List Char)
  | a :: b :: c :: d :: rest =>
    if a.isDigit && b.isDigit && c.isDigit && d.isDigit then
      some (charVal a * 1000 + charVal b * 100 + charVal c * 10 + charVal d, rest)
    else none
  | _ => none

/-- The copyright-line pattern (header module, COPYRIGHT_REGEX): two slashes,
optional white-space, the literal Copyright, optional white-space, the
literal (c), optional white-space, four digits, an optional minus and four
more digits, mandatory white-space, then a lazy name group separated from an
email token by two-or-more spaces; the whole match is case-insensitive.
Returns the first year, the optional second year, the name and the email.
The optional-white-space runs are taken maximally: any shorter run leaves a
white-space character where a literal non-space character is required. -/
def matchCopyrightData : List Char → Option (Nat × Option Nat × String × String)
  | '/' :: '/' :: r1 =>
    match matchCIlit "copyright".data (r1.dropWhile jsWS) with
    | none => none
    | some r3 =>
      match matchCIlit "(c)".data (r3.dropWhile jsWS) with
      | none => none
      | some r5 =>
        match digits4 (r5.dropWhile jsWS) with
        | none => none
        | some (y1, r7) =>
          let step : Option Nat × List Char :=
            match r7 with
            | c :: r7' =>
              if c = '-' then
                match digits4 r7' with
                | some (y2, r8) => (some y2, r8)
                | none => (none, r7)
              else (none, r7)
            | [] => (none, r7)
          let w := step.2.takeWhile jsWS
          if w.length = 0 then none
          else
            match findSplit (step.2.drop w.length) with
            | some (nm, em) => some (y1, step.1, nm, em)
            | none => none
  | _ => none

/-- The copyright-line pattern applied to a line string. -/
def matchCopyright (line : String) : Option (Nat × Option Nat × String × String) :=
  matchCopyrightData line.data

/-- The contributor continuation pattern (CONTRIBUTOR_REGEX): two slashes,
ten-or-more white-space characters, then the same lazy name group, gap and
email token as the copyright pattern. -/
def matchContributorData : List Char → Option (String × String)
  | '/' :: '/' :: r1 =>
    let w := r1.takeWhile jsWS
    if w.length < 10 then none else findSplit (r1.drop w.length)
  | _ => none

/-- The contributor continuation pattern applied to a line string. -/
def matchContributor (line : String) : Option (String × String) :=
  matchContributorData line.data

/-- Matches the optional URL group: a token beginning with http colon slash
slash or https colon slash slash (case-insensitively) and extending at least
one character beyond that prefix; greediness makes the capture the whole
token. -/
def matchUrlTok (t : List Char) : Bool :=
  let lo := t.map Char.toLower
  ("http://".data.isPrefixOf lo && decide (7 < t.length)) ||
  ("https://".data.isPrefixOf lo && decide (8 < t.length))

/-- The SPDX pattern (SPDX_REGEX): two slashes, optional white-space, the
literal SPDX-License-Identifier with a colon, optional white-space, a
mandatory non-space token (the license), mandatory white-space, an optional
URL token, optional white-space, and an optional email token; case-
insensitive. If no white-space at all follows the license token the whole
expression fails, because the mandatory one-or-more white-space cannot match
anywhere (shrinking the greedy license token only exposes more non-space
characters). -/
def matchSpdxData : List Char → Option (String × Option String × Option String)
  | '/' :: '/' :: r1 =>
    match matchCIlit "spdx-license-identifier:".data (r1.dropWhile jsWS) with
    | none => none
    | some r3 =>
      let r4 := r3.dropWhile jsWS
      let t := r4.takeWhile (fun c => !jsWS c)
      if t.isEmpty then none
      else
        let r5 := r4.drop t.length
        let w := r5.takeWhile jsWS
        if w.isEmpty then none
        else
          let r6 := r5.drop w.length
          let u := r6.takeWhile (fun c => !jsWS c)
          let url : Option String := if matchUrlTok u then some (String.mk u) else none
          let r7 := if matchUrlTok u then r6.drop u.length else r6
          let r8 := r7.drop (r7.takeWhile jsWS).length
          let e := r8.takeWhile (fun c => !jsWS c)
          let mail : Option String := if emailTok e then some (String.mk e) else none
          some (String.mk t, url, mail)
  | _ => none

/-- The SPDX pattern applied to a line string. -/
def matchSpdx (line : String) : Option (String × Option String × Option String) :=
  matchSpdxData line.data

/-! ## Header engine: parse, generate, update, validate, replace -/

/-- State accumulated by the scanning loop of parseHeader. -/
structure ScanState where
  yearStart : Nat
  yearEnd : Nat
  contributors : List Contributor
  spdxLicense : Option String
  licenseUrl : Option String
  maintainerEmail : Option String
deriving DecidableEq, Repr

/-- Initial scan state: the year fields start at the zero sentinel and all
optional fields at none. -/
def initScan : ScanState :=
  ⟨0, 0, [], none, none, none⟩

/-- The scanning loop of parseHeader (header module, lines 88 to 127): walk
the lines after the first, stopping with the one-indexed end line at the
first separator; a copyright match overwrites the years and appends its
contributor, a contributor match appends, an SPDX match overwrites the three
license fields, and any other line is skipped. -/
def scanLines : List String → Nat → ScanState → Option (Nat × ScanState)
  | [], _, _ => none
  | l :: ls, i, st =>
    if isSeparator l then some (i + 1, st)
    else
      match matchCopyright l with
      | some (y1, y2, nm, em) =>
        scanLines ls (i + 1)
          { st with
            yearStart := y1
            yearEnd := match y2 with | some y => y | none => y1
            contributors := st.contributors ++ [⟨nm, em⟩] }
      | none =>
        match matchContributor l with
        | some (nm, em) =>
          scanLines ls (i + 1) { st with contributors := st.contributors ++ [⟨nm, em⟩] }
        | none =>
          match matchSpdx l with
          | some (lic, url, mail) =>
            scanLines ls (i + 1)
              { st with spdxLicense := some lic, licenseUrl := url, maintainerEmail := mail }
          | none => scanLines ls (i + 1) st

/-- The body of parseHeader on the split line list: the first line must be a
separator; the scan must find a closing separator; the raw text is the
joined prefix of the lines up to and including the closing separator. -/
def parseHeaderLines : List String → Option ParsedHeader
  | [] => none
  | l0 :: rest =>
    if !isSeparator l0 then none
    else
      match scanLines rest 1 initScan with
      | none => none
      | some (endLine, st) =>
        some
          { raw := joinLines ((l0 :: rest).take endLine)
            startLine := 1
            endLine := endLine
            yearStart := st.yearStart
            yearEnd := st.yearEnd
            contributors := st.contributors
            spdxLicense := st.spdxLicense
            licenseUrl := st.licenseUrl
            maintainerEmail := st.maintainerEmail }

/-- parseHeader (header module): split the content into lines and parse. -/
def parseHeader (content : String) : Option ParsedHeader :=
  parseHeaderLines (strLines content)

/-- generateHeader (header module): opening separator, a copyright line for
the first displayed contributor carrying the year part, a continuation line
for each further displayed contributor, the SPDX line, closing separator,
joined with newlines. Contributors are truncated to maxContributors. -/
def generateHeader (config : ResolvedConfig) (contributors : List Contributor)
    (yearStart : Nat) (yearEnd : Option Nat) : String :=
  let sep := generateSeparator config.width config.separatorChar config.commentPrefix
  let effectiveYearEnd := yearEnd.getD yearStart
  let yearPart :=
    if yearStart = effectiveYearEnd then natStr yearStart
    else natStr yearStart ++ "-" ++ natStr effectiveYearEnd
  let displayContributors := contributors.take config.maxContributors
  let copyLines :=
    match displayContributors with
    | [] => []
    | c0 :: more =>
      formatCopyrightLine config yearPart c0.name c0.email ::
        more.map fun c => formatCopyrightLine config "" c.name c.email
  joinLines ([sep] ++ copyLines ++ [formatSpdxLine config, sep])

/-- The year-end computation of updateHeader (header module, line 238): the
end year is replaced by the update year only when the update year is truthy
(nonzero) and strictly greater than the current end year. -/
def updatedYearEnd (existingHeader : ParsedHeader) (updateYear : Option Nat) : Nat :=
  match updateYear with
  | some u => if u ≠ 0 ∧ existingHeader.yearEnd < u then u else existingHeader.yearEnd
  | none => existingHeader.yearEnd

/-- The contributor merge of updateHeader (header module, lines 243 to 250):
the new contributor is appended unless some existing contributor has the
same email up to lower-casing. -/
def updatedContributors (existingHeader : ParsedHeader) (newContributor : Option Contributor) :
    List Contributor :=
  match newContributor with
  | some c =>
    if existingHeader.contributors.any fun e => strLower e.email == strLower c.email then
      existingHeader.contributors
    else existingHeader.contributors ++ [c]
  | none => existingHeader.contributors

/-- updateHeader (header module): regenerates the header from the preserved
start year, the updated end year and the merged contributor list. -/
def updateHeader (existingHeader : ParsedHeader) (config : ResolvedConfig)
    (newContributor : Option Contributor) (updateYear : Option Nat) : String :=
  generateHeader config (updatedContributors existingHeader newContributor)
    existingHeader.yearStart (some (updatedYearEnd existingHeader updateYear))

/-- The issue text for a start year in the future. -/
def futureStartMsg (p : ParsedHeader) : String :=
  "Year " ++ natStr p.yearStart ++ " is in the future"

/-- The issue text for an end year in the future. -/
def futureEndMsg (p : ParsedHeader) : String :=
  "End year " ++ natStr p.yearEnd ++ " is in the future"

/-- The issue text for an end year before the start year. -/
def orderMsg (p : ParsedHeader) : String :=
  "End year " ++ natStr p.yearEnd ++ " is before start year " ++ natStr p.yearStart

/-- The issue text for an SPDX mismatch; a null parsed license is
interpolated as the word null, as JS template interpolation does. -/
def spdxMsg (p : ParsedHeader) (config : ResolvedConfig) : String :=
  "SPDX license '" ++ (match p.spdxLicense with | some s => s | none => "null") ++
    "' does not match config '" ++ config.spdxLicense ++ "'"

/-- The issue text for an empty contributor list. -/
def noContribMsg : String :=
  "No contributors found in header"

/-- The issue text when no header parses at all. -/
def noHeaderMsg : String :=
  "No valid header found"

/-- validateHeader (header module): fails with the single no-header issue if
parsing fails; otherwise accumulates, in source order, the future start year,
future end year, reversed year range, SPDX mismatch (only when the configured
SPDX license is a nonempty string) and missing-contributor issues. The
current year is an explicit argument modelling the call of Date
getFullYear. -/
def validateHeader (content : String) (config : ResolvedConfig) (currentYear : Nat) :
    HeaderValidation :=
  match parseHeader content with
  | none => ⟨false, [noHeaderMsg]⟩
  | some p =>
    let issues :=
      (if currentYear < p.yearStart then [futureStartMsg p] else []) ++
      (if currentYear < p.yearEnd then [futureEndMsg p] else []) ++
      (if p.yearEnd < p.yearStart then [orderMsg p] else []) ++
      (if config.spdxLicense ≠ "" ∧ p.spdxLicense ≠ some config.spdxLicense then
        [spdxMsg p config] else []) ++
      (if p.contributors.isEmpty then [noContribMsg] else [])
    ⟨issues.isEmpty, issues⟩

/-- replaceHeader (header module): with an existing header, splice out its
lines and emit the new header, a newline, a conditional extra newline (only
when the first remaining line does not trim to the empty string, or when no
line remains), then the remaining lines joined; without an existing header,
the new header, a blank line and the start-trimmed content. -/
def replaceHeader (content newHeader : String) (existingHeader : Option ParsedHeader) : String :=
  match existingHeader with
  | some h =>
    let afterHeader := (strLines content).drop h.endLine
    let separator :=
      match afterHeader with
      | first :: _ => if strTrim first = "" then "" else "\n"
      | [] => "\n"
    newHeader ++ "\n" ++ separator ++ joinLines afterHeader
  | none => newHeader ++ "\n\n" ++ strTrimStart content

/-! ## Glob matcher (the glob module)

globToRegex compiles a glob pattern, character by character, into a regular
expression built from literals and four composite pieces. The compiled
expression is modelled as a list of tokens; every escaped or passed-through
character denotes a literal (the source escapes every character that is
special in a regular expression except the ones it translates). -/

/-- A token of the compiled pattern: a literal character; the class
bracket-caret-slash-bracket (one character other than slash); that class
starred (any run without a slash); dot-star (any run); or the optional group
of any run followed by a slash (zero or more whole path segments). -/
inductive GlobRe where
  | lit (c : Char)
  | oneNoSlash
  | starNoSlash
  | anyStar
  | optDirs
deriving DecidableEq, Repr

/-- The compilation loop of globToRegex, carrying the previous character
(none at the start) to decide the globstar cases exactly as the source
indexes pattern at i minus 1 and i plus 2. The third globstar branch of the
source advances past three characters even though the third is not a slash;
this is reproduced faithfully. -/
def globToRegexGo : Nat → Option Char → List Char → List GlobRe
  | 0, _, _ => []
  | _ + 1, _, [] => []
  | fuel + 1, prev, '*' :: '*' :: rest =>
    match rest with
    | [] => [GlobRe.anyStar]
    | '/' :: rest' =>
      if prev = none ∨ prev = some '/' then
        GlobRe.optDirs :: globToRegexGo fuel (some '/') rest'
      else GlobRe.anyStar :: globToRegexGo fuel (some '*') rest
    | a :: rest' =>
      if prev = some '/' then GlobRe.optDirs :: globToRegexGo fuel (some a) rest'
      else GlobRe.anyStar :: globToRegexGo fuel (some '*') rest
  | fuel + 1, _, '*' :: rest => GlobRe.starNoSlash :: globToRegexGo fuel (some '*') rest
  | fuel + 1, _, '?' :: rest => GlobRe.oneNoSlash :: globToRegexGo fuel (some '?') rest
  | fuel + 1, _, c :: rest => GlobRe.lit c :: globToRegexGo fuel (some c) rest

/-- globToRegex (the glob module): the empty pattern compiles to the empty
anchored expression; otherwise the loop compiles the pattern. The resulting
token list is implicitly anchored at both ends. The fuel (one step per
pattern character is always enough, since every step consumes at least one
character) makes the recursion structural, hence kernel-reducible. -/
def globToRegex (pattern : List Char) : List GlobRe :=
  globToRegexGo (pattern.length + 1) none pattern

mutual

/-- Fuel-driven anchored matcher for compiled patterns: globMatchF fuel re s
decides whether the whole character list s belongs to the language of the
token list re. A fuel of the token count plus the character count plus one
is always enough, which the adequacy lemmas below make precise. -/
def globMatchF : Nat → List GlobRe → List Char → Bool
  | 0, _, _ => false
  | _ + 1, [], s => s.isEmpty
  | fuel + 1, GlobRe.lit c :: rs, s =>
    match s with
    | [] => false
    | x :: xs => x == c && globMatchF fuel rs xs
  | fuel + 1, GlobRe.oneNoSlash :: rs, s =>
    match s with
    | [] => false
    | x :: xs => !(x == '/') && globMatchF fuel rs xs
  | fuel + 1, GlobRe.starNoSlash :: rs, s =>
    globMatchF fuel rs s ||
      match s with
      | [] => false
      | x :: xs => !(x == '/') && globMatchF fuel (GlobRe.starNoSlash :: rs) xs
  | fuel + 1, GlobRe.anyStar :: rs, s =>
    globMatchF fuel rs s ||
      match s with
      | [] => false
      | _ :: xs => globMatchF fuel (GlobRe.anyStar :: rs) xs
  | fuel + 1, GlobRe.optDirs :: rs, s =>
    globMatchF fuel rs s || globSlashF fuel rs s

/-- Slash-scanning companion of globMatchF: whether some split of the input
at a slash leaves a suffix matching the token list (the meaning of the
optional group of any run followed by a slash). -/
def globSlashF : Nat → List GlobRe → List Char → Bool
  | 0, _, _ => false
  | _ + 1, _, [] => false
  | fuel + 1, rs, c :: cs => (c == '/' && globMatchF fuel rs cs) || globSlashF fuel rs cs

end

/-- Anchored match of a compiled pattern with sufficient fuel. -/
def reMatch (re : List GlobRe) (s : List Char) : Bool :=
  globMatchF (re.length + s.length + 1) re s

/-- matchesGlob (the glob module): compile the pattern and test the path. -/
def matchesGlob (path pattern : String) : Bool :=
  reMatch (globToRegex pattern.data) path.data

/-! ## Infrastructure lemmas about split and join -/

theorem splitOnSep_ne_nil (c : Char) (l : List Char) : splitOnSep c l ≠ [] := by
  induction l with
  | nil => simp [splitOnSep]
  | cons x xs ih =>
    simp only [splitOnSep]
    match h : splitOnSep c xs with
    | [] => exact absurd h ih
    | p :: r => by_cases hx : x == c <;> simp [hx]

theorem splitOnSep_append_sep (c : Char) (u v : List Char) :
    splitOnSep c (u ++ c :: v) = splitOnSep c u ++ splitOnSep c v := by
  induction u with
  | nil =>
    simp only [List.nil_append, splitOnSep]
    match h : splitOnSep c v with
    | [] => exact absurd h (splitOnSep_ne_nil c v)
    | p :: r => simp
  | cons x xs ih =>
    simp only [List.cons_append, splitOnSep, ih]
    match h2 : splitOnSep c xs with
    | [] => exact absurd h2 (splitOnSep_ne_nil c _)
    | q :: s =>
      have ih' : splitOnSep c (xs.append (c :: v)) = splitOnSep c xs ++ splitOnSep c v := ih
      rw [ih', h2]
      by_cases hx : x == c <;> simp [hx]

theorem splitOnSep_no_sep (c : Char) (u : List Char) (h : c ∉ u) :
    splitOnSep c u = [u] := by
  induction u with
  | nil => rfl
  | cons x xs ih =>
    simp only [List.mem_cons, not_or] at h
    simp only [splitOnSep, ih h.2]
    have hx : (x == c) = false := by simp [Ne.symm h.1]
    simp [hx]

theorem mem_splitOnSep_no_sep (c : Char) (l : List Char) :
    ∀ p ∈ splitOnSep c l, c ∉ p := by
  induction l with
  | nil => simp [splitOnSep]
  | cons x xs ih =>
    simp only [splitOnSep]
    match h : splitOnSep c xs with
    | [] => exact absurd h (splitOnSep_ne_nil c xs)
    | p :: r =>
      rw [h] at ih
      by_cases hx : x == c
      · simp only [hx, if_true]
        intro q hq
        rcases List.mem_cons.mp hq with rfl | hq
        · simp
        · exact ih q hq
      · simp only [hx, Bool.false_eq_true, if_false]
        intro q hq
        rcases List.mem_cons.mp hq with rfl | hq
        · have hxc : ¬ x = c := by simpa using hx
          have hcp : c ∉ p := ih p (by simp)
          simp only [List.mem_cons, not_or]
          exact ⟨fun hh => hxc hh.symm, hcp⟩
        · exact ih q (by simp [hq])

theorem splitOnSep_join (c : Char) (ls : List (List Char)) (h : ls ≠ [])
    (h2 : ∀ p ∈ ls, c ∉ p) : splitOnSep c (joinWithSep c ls) = ls := by
  induction ls with
  | nil => exact absurd rfl h
  | cons p rest ih =>
    match rest with
    | [] => exact splitOnSep_no_sep c p (h2 p (by simp))
    | q :: rest' =>
      have hjoin : joinWithSep c (p :: q :: rest') = p ++ c :: joinWithSep c (q :: rest') := rfl
      rw [hjoin, splitOnSep_append_sep, splitOnSep_no_sep c p (h2 p (by simp)),
        ih (by simp) (fun r hr => h2 r (by simp [hr]))]
      rfl

/-! ## Infrastructure lemmas about strings -/

theorem strMk_data : ∀ s : String, String.mk s.data = s
  | ⟨_⟩ => rfl

theorem strData_append (a b : String) : (a ++ b).data = a.data ++ b.data :=
  rfl

theorem strLines_append (a b : String) :
    strLines (a ++ "\n" ++ b) = strLines a ++ strLines b := by
  have hnl : "\n".data = ['\n'] := by decide
  have hdata : (a ++ "\n" ++ b).data = a.data ++ '\n' :: b.data := by
    rw [strData_append, strData_append, hnl]
    simp
  rw [strLines, hdata, splitOnSep_append_sep, List.map_append]
  rfl

theorem strLines_join (ls : List String) (h : ls ≠ [])
    (h2 : ∀ l ∈ ls, '\n' ∉ l.data) : strLines (joinLines ls) = ls := by
  have hmapne : ls.map String.data ≠ [] := by simpa using h
  have hmem : ∀ p ∈ ls.map String.data, '\n' ∉ p := by
    intro p hp
    rcases List.mem_map.mp hp with ⟨l, hl, rfl⟩
    exact h2 l hl
  have h3 : (joinLines ls).data = joinWithSep '\n' (ls.map String.data) := rfl
  rw [strLines, h3, splitOnSep_join '\n' (ls.map String.data) hmapne hmem, List.map_map]
  have hcomp : (String.mk ∘ String.data) = id := funext strMk_data
  rw [hcomp, List.map_id]

theorem mem_strLines_no_newline (s : String) :
    ∀ l ∈ strLines s, '\n' ∉ l.data := by
  intro l hl
  rcases List.mem_map.mp hl with ⟨p, hp, rfl⟩
  exact mem_splitOnSep_no_sep '\n' s.data p hp

theorem strLines_ne_nil (s : String) : strLines s ≠ [] := by
  rw [strLines]
  simpa using splitOnSep_ne_nil '\n' s.data

/-! ## Small arithmetic and length lemmas -/

theorem listRepeat_length (l : List Char) (n : Nat) :
    (listRepeat l n).length = n * l.length := by
  induction n with
  | zero => simp [listRepeat]
  | succ m ih => simp [listRepeat, ih, Nat.succ_mul, Nat.add_comm]

theorem strLength_data (s : String) : s.length = s.data.length :=
  rfl

theorem strLength_append (a b : String) : (a ++ b).length = a.length + b.length := by
  rw [strLength_data, strLength_data, strLength_data, strData_append, List.length_append]

theorem strRepeat_length (s : String) (n : Nat) : (strRepeat s n).length = n * s.length :=
  listRepeat_length s.data n

/-- The default-like configuration used by the concrete witnesses below; its
values are those of DEFAULT_CONFIG in config.generated.ts together with the
license data this repository uses. -/
def defaultCfg : ResolvedConfig :=
  ⟨100, "-", "//", 40, 65, 40, 75, "MPL-2.0", "https://mozilla.org/MPL/2.0",
   "contact@hiisi.digital", 3, ContributorSelection.commits, [], [], []⟩

/-! ## Claim C4: generateSeparator -/

/-- Claim C4, counterexample. The claim asserts that for every width, every
nonempty fill string and every prefix with width at least the prefix length,
the returned line has total length exactly width; with the two-character
fill string ab, width 4 and prefix two slashes the source repeats the whole
string twice and returns a line of length 6. -/
theorem generateSeparator_length_cex :
    generateSeparator 4 "ab" "//" = "//abab" ∧
      ¬ (generateSeparator 4 "ab" "//").length = 4 := by
  constructor
  · rfl
  · decide

/-- Claim C4, amended: for every width, nonempty fill string and prefix,
generateSeparator returns the prefix alone when width minus prefix length is
not positive and the prefix followed by the fill string repeated that many
times otherwise; the total length equals width whenever additionally the
fill string has length one and the width is at least the prefix length. -/
theorem generateSeparator_spec (w : Int) (ch pre : String) (hch : ch ≠ "") :
    (w - pre.length ≤ 0 → generateSeparator w ch pre = pre) ∧
    (0 < w - pre.length →
      generateSeparator w ch pre = pre ++ strRepeat ch (w - pre.length).toNat) ∧
    (ch.length = 1 → (pre.length : Int) ≤ w →
      ((generateSeparator w ch pre).length : Int) = w) := by
  refine ⟨fun hle => ?_, fun hgt => ?_, fun hone hwide => ?_⟩
  · simp [generateSeparator, hle]
  · simp [generateSeparator, not_le.mpr hgt, le_of_lt]
  · by_cases hle : w - (pre.length : Int) ≤ 0
    · simp only [generateSeparator, hle, if_true]
      omega
    · simp only [generateSeparator, hle, if_false]
      rw [strLength_append, strRepeat_length, hone]
      omega

/-- Witness for the amended claim C4 at the configured width 100, fill
string minus, prefix two slashes. -/
theorem generateSeparator_spec_witness :
    ("-" : String) ≠ "" ∧ (("//" : String).length : Int) ≤ 100 ∧
      ((generateSeparator 100 "-" "//").length : Int) = 100 :=
  ⟨by decide, by decide,
    (generateSeparator_spec 100 "-" "//" (by decide)).2.2 (by decide) (by decide)⟩

/-! ## Claims C5, C6, C10: updateHeader -/

/-- Claim C5: the update never lowers the end year; the end year becomes the
update year exactly in the strictly-greater case and is otherwise kept, a
missing update year keeps it as well, and the regenerated header is produced
from the unchanged start year together with the updated end year. -/
theorem updateHeader_year_monotone (h : ParsedHeader) (cfg : ResolvedConfig)
    (nc : Option Contributor) (u : Nat) :
    (h.yearEnd < u → updatedYearEnd h (some u) = u) ∧
    (¬ h.yearEnd < u → updatedYearEnd h (some u) = h.yearEnd) ∧
    updatedYearEnd h none = h.yearEnd ∧
    h.yearEnd ≤ updatedYearEnd h (some u) ∧
    updateHeader h cfg nc (some u) =
      generateHeader cfg (updatedContributors h nc) h.yearStart
        (some (updatedYearEnd h (some u))) := by
  refine ⟨fun hlt => ?_, fun hge => ?_, rfl, ?_, rfl⟩
  · have : u ≠ 0 ∧ h.yearEnd < u := ⟨by omega, hlt⟩
    simp [updatedYearEnd, this]
  · simp only [updatedYearEnd]
    rw [if_neg]
    exact fun hc => hge hc.2
  · simp only [updatedYearEnd]
    by_cases hc : u ≠ 0 ∧ h.yearEnd < u
    · rw [if_pos hc]; omega
    · rw [if_neg hc]

/-- Witness for claim C5: an end year of 2025 is not regressed by an update
year of 2024 and is advanced by an update year of 2026. -/
theorem updateHeader_year_monotone_witness :
    updatedYearEnd ⟨"", 1, 4, 2020, 2025, [⟨"A", "a@x.io"⟩], none, none, none⟩ (some 2024) =
      2025 ∧
    updatedYearEnd ⟨"", 1, 4, 2020, 2025, [⟨"A", "a@x.io"⟩], none, none, none⟩ (some 2026) =
      2026 :=
  ⟨(updateHeader_year_monotone ⟨"", 1, 4, 2020, 2025, [⟨"A", "a@x.io"⟩], none, none, none⟩
      defaultCfg none 2024).2.1 (by decide),
   (updateHeader_year_monotone ⟨"", 1, 4, 2020, 2025, [⟨"A", "a@x.io"⟩], none, none, none⟩
      defaultCfg none 2026).1 (by decide)⟩

theorem updatedContributors_append (h : ParsedHeader) (nc : Contributor)
    (hnone : ∀ e ∈ h.contributors, strLower e.email ≠ strLower nc.email) :
    updatedContributors h (some nc) = h.contributors ++ [nc] := by
  simp only [updatedContributors]
  rw [if_neg]
  simp only [List.any_eq_true, beq_iff_eq, not_exists]
  intro e
  exact fun hc => hnone e hc.1 hc.2

/-- Claim C6: the contributor list passed to regeneration is the existing
list with the new contributor appended exactly when no existing contributor
shares its email up to case, and is the unchanged existing list when one
does; updateHeader regenerates from that list. -/
theorem updateHeader_no_duplicate (h : ParsedHeader) (cfg : ResolvedConfig)
    (uy : Option Nat) (nc : Contributor) :
    ((∀ e ∈ h.contributors, strLower e.email ≠ strLower nc.email) →
      updatedContributors h (some nc) = h.contributors ++ [nc]) ∧
    ((∃ e ∈ h.contributors, strLower e.email = strLower nc.email) →
      updatedContributors h (some nc) = h.contributors) ∧
    updateHeader h cfg (some nc) uy =
      generateHeader cfg (updatedContributors h (some nc)) h.yearStart
        (some (updatedYearEnd h uy)) := by
  refine ⟨fun hnone => updatedContributors_append h nc hnone, fun hsome => ?_, rfl⟩
  · simp only [updatedContributors]
    rw [if_pos]
    simp only [List.any_eq_true, beq_iff_eq]
    rcases hsome with ⟨e, he, heq⟩
    exact ⟨e, he, heq⟩

/-- Witness for claim C6: an update whose new contributor repeats an
existing email in different case leaves the list unchanged, and one with a
fresh email appends. -/
theorem updateHeader_no_duplicate_witness :
    updatedContributors ⟨"", 1, 4, 2020, 2025, [⟨"A", "a@x.io"⟩], none, none, none⟩
      (some ⟨"B", "A@X.IO"⟩) = [⟨"A", "a@x.io"⟩] ∧
    updatedContributors ⟨"", 1, 4, 2020, 2025, [⟨"A", "a@x.io"⟩], none, none, none⟩
      (some ⟨"B", "b@y.io"⟩) = [⟨"A", "a@x.io"⟩, ⟨"B", "b@y.io"⟩] :=
  ⟨(updateHeader_no_duplicate ⟨"", 1, 4, 2020, 2025, [⟨"A", "a@x.io"⟩], none, none, none⟩
      defaultCfg none ⟨"B", "A@X.IO"⟩).2.1 ⟨⟨"A", "a@x.io"⟩, by decide, by decide⟩,
   (updateHeader_no_duplicate ⟨"", 1, 4, 2020, 2025, [⟨"A", "a@x.io"⟩], none, none, none⟩
      defaultCfg none ⟨"B", "b@y.io"⟩).1 (by decide)⟩

/-- Claim C10: when the parsed header already carries at least
maxContributors contributors and the new contributor's email is fresh, the
updated header string is identical to the one regenerated without the new
contributor: generateHeader truncates the merged list back to the first
maxContributors entries, silently dropping the appended contributor. -/
theorem updateHeader_drops_overflow_contributor (h : ParsedHeader) (cfg : ResolvedConfig)
    (uy : Option Nat) (nc : Contributor)
    (hfull : cfg.maxContributors ≤ h.contributors.length)
    (hnew : ∀ e ∈ h.contributors, strLower e.email ≠ strLower nc.email) :
    updateHeader h cfg (some nc) uy = updateHeader h cfg none uy := by
  have happ : updatedContributors h (some nc) = h.contributors ++ [nc] :=
    updatedContributors_append h nc hnew
  have hnone : updatedContributors h none = h.contributors := rfl
  have htake : (h.contributors ++ [nc]).take cfg.maxContributors =
      h.contributors.take cfg.maxContributors :=
    List.take_append_of_le_length hfull
  simp only [updateHeader, generateHeader, happ, hnone, htake]

/-- Witness for claim C10: with three existing contributors, the default
limit of three, and a fresh fourth contributor, update with and without the
new contributor produce the same header string. -/
theorem updateHeader_drops_overflow_contributor_witness :
    defaultCfg.maxContributors ≤
      (⟨"", 1, 6, 2020, 2025,
        [⟨"A", "a@x.io"⟩, ⟨"B", "b@x.io"⟩, ⟨"C", "c@x.io"⟩], none, none, none⟩ :
        ParsedHeader).contributors.length ∧
    updateHeader ⟨"", 1, 6, 2020, 2025,
        [⟨"A", "a@x.io"⟩, ⟨"B", "b@x.io"⟩, ⟨"C", "c@x.io"⟩], none, none, none⟩
      defaultCfg (some ⟨"D", "d@x.io"⟩) none =
    updateHeader ⟨"", 1, 6, 2020, 2025,
        [⟨"A", "a@x.io"⟩, ⟨"B", "b@x.io"⟩, ⟨"C", "c@x.io"⟩], none, none, none⟩
      defaultCfg none none :=
  ⟨by decide,
   updateHeader_drops_overflow_contributor _ defaultCfg none ⟨"D", "d@x.io"⟩
     (by decide) (by decide)⟩

/-! ## Claim C2: formatLine -/

/-- Modelled from the spec (section 4.2, amended at the boundary): the start
offsets the walk assigns to a sorted column list, given the cursor. A column
whose target lies strictly beyond the cursor starts exactly at its target;
otherwise one separating space is inserted when the cursor is positive, and
none when the cursor is zero. -/
def placeStarts : List Column → Int → List Int
  | [], _ => []
  | c :: rest, cur =>
    let s := if cur < c.position then c.position else if 0 < cur then cur + 1 else cur
    s :: placeStarts rest (s + c.content.length)

theorem spaces_data (n : Nat) : (spaces n).data = List.replicate n ' ' := by
  have h : " ".data = [' '] := by decide
  show listRepeat " ".data n = List.replicate n ' '
  rw [h]
  induction n with
  | zero => rfl
  | succ m ih => simp [listRepeat, ih, List.replicate_succ]

theorem formatLineGo_data_prefix (cols : List Column) :
    ∀ (res : String) (cur : Int), ∃ t, (formatLineGo cols res cur).data = res.data ++ t := by
  induction cols with
  | nil => exact fun res cur => ⟨[], by simp [formatLineGo]⟩
  | cons c rest ih =>
    intro res cur
    simp only [formatLineGo]
    by_cases h1 : 0 < c.position - cur
    · rcases ih (res ++ spaces (c.position - cur).toNat ++ c.content)
        (cur + (c.position - cur) + c.content.length) with ⟨t, ht⟩
      refine ⟨(spaces (c.position - cur).toNat).data ++ c.content.data ++ t, ?_⟩
      rw [if_pos h1, ht]
      simp [strData_append]
    · by_cases h2 : 0 < cur
      · rcases ih (res ++ " " ++ c.content) (cur + 1 + c.content.length) with ⟨t, ht⟩
        exact ⟨" ".data ++ c.content.data ++ t, by simp [h1, h2, ht, strData_append]⟩
      · rcases ih (res ++ c.content) (cur + c.content.length) with ⟨t, ht⟩
        exact ⟨c.content.data ++ t, by simp [h1, h2, ht, strData_append]⟩

theorem spaces_length (n : Nat) : (spaces n).length = n := by
  rw [strLength_data, spaces_data, List.length_replicate]

theorem formatLineGo_spec (cols : List Column) :
    ∀ (res : String) (cur : Int), cur = (res.length : Int) →
    ∀ p ∈ cols.zip (placeStarts cols cur),
      ((formatLineGo cols res cur).data.drop p.2.toNat).take p.1.content.data.length =
        p.1.content.data := by
  induction cols with
  | nil => intro res cur _ p hp; simp [placeStarts] at hp
  | cons c rest ih =>
    intro res cur hcur p hp
    by_cases h1 : cur < c.position
    · -- padding branch: content starts exactly at its position
      have hpad : 0 < c.position - cur := by omega
      have hgo : formatLineGo (c :: rest) res cur =
          formatLineGo rest (res ++ spaces (c.position - cur).toNat ++ c.content)
            (cur + (c.position - cur) + c.content.length) := by
        simp only [formatLineGo]
        rw [if_pos hpad]
      have hlen1 : (res.data ++ (spaces (c.position - cur).toNat).data).length =
          c.position.toNat := by
        have := spaces_length (c.position - cur).toNat
        rw [strLength_data] at this
        simp only [List.length_append, this]
        have hres : res.length = res.data.length := rfl
        omega
      have hcur' : cur + (c.position - cur) + (c.content.length : Int) =
          ((res ++ spaces (c.position - cur).toNat ++ c.content).length : Int) := by
        rw [strLength_append, strLength_append, spaces_length]
        push_cast
        omega
      have hps : placeStarts (c :: rest) cur =
          c.position :: placeStarts rest (c.position + c.content.length) := by
        simp [placeStarts, h1]
      rw [hps] at hp
      rcases List.mem_cons.mp (by simpa [List.zip_cons_cons] using hp) with heq | htail
      · subst heq
        rcases formatLineGo_data_prefix rest
          (res ++ spaces (c.position - cur).toNat ++ c.content)
          (cur + (c.position - cur) + c.content.length) with ⟨t, ht⟩
        rw [hgo, ht]
        have hassoc : (res ++ spaces (c.position - cur).toNat ++ c.content).data ++ t =
            (res.data ++ (spaces (c.position - cur).toNat).data) ++ (c.content.data ++ t) := by
          rw [strData_append, strData_append]
          simp
        rw [hassoc, ← hlen1, List.drop_left, List.take_left]
      · have harith : c.position + (c.content.length : Int) =
            cur + (c.position - cur) + c.content.length := by ring
        rw [harith] at htail
        rw [hgo]
        exact ih _ _ hcur' p htail
    · by_cases h2 : 0 < cur
      · -- overlap branch with a positive cursor: one separating space
        have hpad : ¬ 0 < c.position - cur := by omega
        have hgo : formatLineGo (c :: rest) res cur =
            formatLineGo rest (res ++ " " ++ c.content) (cur + 1 + c.content.length) := by
          simp only [formatLineGo]
          rw [if_neg hpad, if_pos h2]
        have hsp : (" " : String).data = [' '] := by decide
        have hlen1 : (res.data ++ (" " : String).data).length = (cur + 1).toNat := by
          rw [hsp]
          have hres : res.length = res.data.length := rfl
          simp only [List.length_append, List.length_cons, List.length_nil]
          omega
        have hcur' : cur + 1 + (c.content.length : Int) =
            ((res ++ " " ++ c.content).length : Int) := by
          rw [strLength_append, strLength_append]
          have hone : (" " : String).length = 1 := rfl
          rw [hone]
          push_cast
          omega
        have hps : placeStarts (c :: rest) cur =
            (cur + 1) :: placeStarts rest (cur + 1 + c.content.length) := by
          simp [placeStarts, h1, h2]
        rw [hps] at hp
        rcases List.mem_cons.mp (by simpa [List.zip_cons_cons] using hp) with heq | htail
        · subst heq
          rcases formatLineGo_data_prefix rest (res ++ " " ++ c.content)
            (cur + 1 + c.content.length) with ⟨t, ht⟩
          rw [hgo, ht]
          have hassoc : (res ++ " " ++ c.content).data ++ t =
              (res.data ++ (" " : String).data) ++ (c.content.data ++ t) := by
            rw [strData_append, strData_append]
            simp
          rw [hassoc, ← hlen1, List.drop_left, List.take_left]
        · rw [hgo]
          exact ih _ _ hcur' p htail
      · -- zero cursor: content lands at the cursor itself
        have hpad : ¬ 0 < c.position - cur := by omega
        have hzero : cur = 0 := by omega
        have hres0 : res.data = [] := by
          have : res.data.length = 0 := by
            have hres : res.length = res.data.length := rfl
            omega
          exact List.length_eq_zero.mp this
        have hgo : formatLineGo (c :: rest) res cur =
            formatLineGo rest (res ++ c.content) (cur + c.content.length) := by
          simp only [formatLineGo]
          rw [if_neg hpad, if_neg h2]
        have hcur' : cur + (c.content.length : Int) = ((res ++ c.content).length : Int) := by
          rw [strLength_append]
          push_cast
          have hres : res.length = res.data.length := rfl
          omega
        have hps : placeStarts (c :: rest) cur =
            cur :: placeStarts rest (cur + c.content.length) := by
          simp [placeStarts, h1, h2]
        rw [hps] at hp
        rcases List.mem_cons.mp (by simpa [List.zip_cons_cons] using hp) with heq | htail
        · subst heq
          rcases formatLineGo_data_prefix rest (res ++ c.content)
            (cur + c.content.length) with ⟨t, ht⟩
          rw [hgo, ht]
          have hassoc : (res ++ c.content).data ++ t = res.data ++ (c.content.data ++ t) := by
            rw [strData_append]
            simp
          rw [hassoc, hres0, hzero]
          simp [List.take_left]
        · rw [hgo]
          exact ih _ _ hcur' p htail

/-- Claim C2, counterexample. The claim places a column's content at exactly
its target position whenever the cursor has not yet passed that position;
with columns ab at 0 and c at 2 the cursor is exactly 2 when the second
column is processed (reached, not passed), yet the source inserts a space,
so the output is the four characters a b space c and position 2 holds a
space rather than the content. -/
theorem formatLine_exact_position_cex :
    formatLine [⟨"ab", 0⟩, ⟨"c", 2⟩] = "ab c" ∧
      ¬ ((formatLine [⟨"ab", 0⟩, ⟨"c", 2⟩]).data.drop 2).take 1 = "c".data := by
  constructor
  · rfl
  · decide

/-- Claim C2, amended: formatLine sorts the columns stably ascending by
position; walking the sorted list, a column's content starts at exactly its
target position whenever the cursor is still strictly below that position,
and when the cursor has reached or passed it, exactly one space is inserted
if the cursor is positive (at cursor zero the content starts at the cursor).
The empty column list yields the empty string. The start offsets are the
ones computed by placeStarts, and the conclusion extracts each column's
content from the output at its start offset. -/
theorem formatLine_spec :
    formatLine [] = "" ∧
    ∀ cols : List Column,
      (sortCols cols).Perm cols ∧
      List.Sorted colLE (sortCols cols) ∧
      ∀ p ∈ (sortCols cols).zip (placeStarts (sortCols cols) 0),
        ((formatLine cols).data.drop p.2.toNat).take p.1.content.data.length =
          p.1.content.data := by
  refine ⟨rfl, fun cols => ⟨List.perm_insertionSort colLE cols,
    List.sorted_insertionSort colLE cols, ?_⟩⟩
  match hc : cols with
  | [] => intro p hp; simp [sortCols, List.insertionSort, placeStarts] at hp
  | a :: as =>
    intro p hp
    have hne : ((a :: as : List Column).isEmpty) = false := rfl
    show ((formatLineGo (sortCols (a :: as)) "" 0).data.drop p.2.toNat).take
        p.1.content.data.length = p.1.content.data
    exact formatLineGo_spec (sortCols (a :: as)) "" 0 (by decide) p hp

/-- Witness for the amended claim C2: in the spec's own example the content
B of the column at position 10 starts at index 10 of the output. -/
theorem formatLine_spec_witness :
    ((⟨"B", 10⟩, (10 : Int)) : Column × Int) ∈
        (sortCols [⟨"A", 0⟩, ⟨"B", 10⟩]).zip
          (placeStarts (sortCols [⟨"A", 0⟩, ⟨"B", 10⟩]) 0) ∧
      ((formatLine [⟨"A", 0⟩, ⟨"B", 10⟩]).data.drop ((10 : Int)).toNat).take
          ("B" : String).data.length = ("B" : String).data :=
  ⟨by decide, (formatLine_spec.2 [⟨"A", 0⟩, ⟨"B", 10⟩]).2.2 (⟨"B", 10⟩, (10 : Int))
    (by decide)⟩

/-! ## Claim C7: validateHeader -/

theorem strExt (a b : String) (h : a.data = b.data) : a = b := by
  cases a
  cases b
  cases h
  rfl

theorem append_head (a b : String) (c : Char) (t : List Char) (ha : a.data = c :: t) :
    (a ++ b).data.head? = some c := by
  rw [strData_append, ha]
  rfl

theorem futureStartMsg_ne (p : ParsedHeader) : futureStartMsg p ≠ noHeaderMsg := by
  intro h
  have h1 : (futureStartMsg p).data.head? = some 'Y' := by
    show ("Year " ++ natStr p.yearStart ++ " is in the future").data.head? = some 'Y'
    rw [strData_append, strData_append]
    have hy : "Year ".data = 'Y' :: "ear ".data := by decide
    rw [hy]
    rfl
  rw [h] at h1
  exact absurd h1 (by decide)

theorem futureEndMsg_ne (p : ParsedHeader) : futureEndMsg p ≠ noHeaderMsg := by
  intro h
  have h1 : (futureEndMsg p).data.head? = some 'E' := by
    show ("End year " ++ natStr p.yearEnd ++ " is in the future").data.head? = some 'E'
    rw [strData_append, strData_append]
    have he : "End year ".data = 'E' :: "nd year ".data := by decide
    rw [he]
    rfl
  rw [h] at h1
  exact absurd h1 (by decide)

theorem orderMsg_ne (p : ParsedHeader) : orderMsg p ≠ noHeaderMsg := by
  intro h
  have h1 : (orderMsg p).data.head? = some 'E' := by
    show ("End year " ++ natStr p.yearEnd ++ " is before start year " ++
      natStr p.yearStart).data.head? = some 'E'
    rw [strData_append, strData_append, strData_append]
    have he : "End year ".data = 'E' :: "nd year ".data := by decide
    rw [he]
    rfl
  rw [h] at h1
  exact absurd h1 (by decide)

theorem spdxMsg_ne (p : ParsedHeader) (cfg : ResolvedConfig) : spdxMsg p cfg ≠ noHeaderMsg := by
  intro h
  have h1 : (spdxMsg p cfg).data.head? = some 'S' := by
    show ("SPDX license '" ++ (match p.spdxLicense with | some s => s | none => "null") ++
      "' does not match config '" ++ cfg.spdxLicense ++ "'").data.head? = some 'S'
    rw [strData_append, strData_append, strData_append, strData_append]
    have hs : "SPDX license '".data = 'S' :: "PDX license '".data := by decide
    rw [hs]
    rfl
  rw [h] at h1
  exact absurd h1 (by decide)

theorem noContribMsg_ne : noContribMsg ≠ noHeaderMsg := by
  decide

/-- The issue list built for a successfully parsed header. -/
def issuesOf (p : ParsedHeader) (cfg : ResolvedConfig) (year : Nat) : List String :=
  (if year < p.yearStart then [futureStartMsg p] else []) ++
  (if year < p.yearEnd then [futureEndMsg p] else []) ++
  (if p.yearEnd < p.yearStart then [orderMsg p] else []) ++
  (if cfg.spdxLicense ≠ "" ∧ p.spdxLicense ≠ some cfg.spdxLicense then [spdxMsg p cfg]
    else []) ++
  (if p.contributors.isEmpty then [noContribMsg] else [])

theorem noHeaderMsg_not_mem_issuesOf (p : ParsedHeader) (cfg : ResolvedConfig) (year : Nat) :
    noHeaderMsg ∉ issuesOf p cfg year := by
  intro hmem
  simp only [issuesOf, List.mem_append] at hmem
  rcases hmem with ((((h | h) | h) | h) | h)
  · split at h
    · exact futureStartMsg_ne p (List.mem_singleton.mp h).symm
    · simp at h
  · split at h
    · exact futureEndMsg_ne p (List.mem_singleton.mp h).symm
    · simp at h
  · split at h
    · exact orderMsg_ne p (List.mem_singleton.mp h).symm
    · simp at h
  · split at h
    · exact spdxMsg_ne p cfg (List.mem_singleton.mp h).symm
    · simp at h
  · split at h
    · exact noContribMsg_ne (List.mem_singleton.mp h).symm
    · simp at h

theorem validateHeader_eq_parsed (content : String) (cfg : ResolvedConfig) (year : Nat)
    (p : ParsedHeader) (hp : parseHeader content = some p) :
    validateHeader content cfg year = ⟨(issuesOf p cfg year).isEmpty, issuesOf p cfg year⟩ := by
  rw [validateHeader, hp]
  rfl

/-- Claim C7: validateHeader returns invalid with the single no-header issue
exactly when parsing fails; on a successful parse the issue list is the
concatenation, in order, of the future-start-year, future-end-year,
end-before-start, SPDX-mismatch (only with a nonempty configured license,
and with the words does not match inside the message) and
empty-contributors findings; and in every case the valid flag holds exactly
when the issue list is empty. -/
theorem validateHeader_spec (content : String) (cfg : ResolvedConfig) (year : Nat) :
    (validateHeader content cfg year = ⟨false, [noHeaderMsg]⟩ ↔ parseHeader content = none) ∧
    (∀ p, parseHeader content = some p →
      (validateHeader content cfg year).issues = issuesOf p cfg year) ∧
    ((validateHeader content cfg year).valid = true ↔
      (validateHeader content cfg year).issues = []) ∧
    (∀ p, parseHeader content = some p → cfg.spdxLicense ≠ "" →
      p.spdxLicense ≠ some cfg.spdxLicense →
      spdxMsg p cfg ∈ (validateHeader content cfg year).issues ∧
      ∃ a b, spdxMsg p cfg = a ++ "does not match" ++ b) := by
  refine ⟨?_, ?_, ?_, ?_⟩
  · constructor
    · intro heq
      match hp : parseHeader content with
      | none => rfl
      | some p =>
        exfalso
        rw [validateHeader_eq_parsed content cfg year p hp] at heq
        have hiss : issuesOf p cfg year = [noHeaderMsg] := congrArg HeaderValidation.issues heq
        exact noHeaderMsg_not_mem_issuesOf p cfg year (hiss ▸ List.mem_singleton_self _)
    · intro hnone
      rw [validateHeader, hnone]
  · intro p hp
    rw [validateHeader_eq_parsed content cfg year p hp]
  · match hp : parseHeader content with
    | none =>
      rw [validateHeader, hp]
      simp [noHeaderMsg]
    | some p =>
      rw [validateHeader_eq_parsed content cfg year p hp]
      exact List.isEmpty_iff
  · intro p hp hcfg hne
    constructor
    · rw [validateHeader_eq_parsed content cfg year p hp]
      show spdxMsg p cfg ∈ issuesOf p cfg year
      simp only [issuesOf, List.mem_append]
      refine Or.inl (Or.inr ?_)
      rw [if_pos ⟨hcfg, hne⟩]
      exact List.mem_singleton_self _
    · refine ⟨"SPDX license '" ++ (match p.spdxLicense with | some s => s | none => "null") ++
        "' ", " config '" ++ cfg.spdxLicense ++ "'", ?_⟩
      apply strExt
      simp [spdxMsg, strData_append, List.append_assoc]

/-- Witness for claim C7 at a content with no header: validation fails fast
with the single no-header issue. -/
theorem validateHeader_spec_witness :
    parseHeader "nope" = none ∧
      validateHeader "nope" defaultCfg 2026 = ⟨false, [noHeaderMsg]⟩ :=
  ⟨by decide, (validateHeader_spec "nope" defaultCfg 2026).1.mpr (by decide)⟩

/-! ## Claim C9: parseHeader structural invariants -/

theorem scanLines_cons_not_sep (l : String) (ls : List String) (i : Nat) (st : ScanState)
    (hsep : isSeparator l = false) :
    ∃ st2, scanLines (l :: ls) i st = scanLines ls (i + 1) st2 := by
  simp only [scanLines, hsep, Bool.false_eq_true, if_false]
  match matchCopyright l with
  | some (y1, y2, nm, em) => exact ⟨_, rfl⟩
  | none =>
    match matchContributor l with
    | some (nm, em) => exact ⟨_, rfl⟩
    | none =>
      match matchSpdx l with
      | some (lic, url, mail) => exact ⟨_, rfl⟩
      | none => exact ⟨st, rfl⟩

theorem scanLines_sep (ls : List String) : ∀ (i : Nat) (st : ScanState) (e : Nat)
    (st' : ScanState), scanLines ls i st = some (e, st') →
    i < e ∧ e ≤ i + ls.length ∧
      ∃ hl, ls[e - 1 - i]? = some hl ∧ isSeparator hl = true := by
  induction ls with
  | nil => intro i st e st' h; simp [scanLines] at h
  | cons l ls' ih =>
    intro i st e st' h
    by_cases hsep : isSeparator l
    · rw [scanLines, if_pos hsep] at h
      have h1 := Option.some.inj h
      injection h1 with he hst
      subst he
      refine ⟨by omega, by simp, l, ?_, hsep⟩
      have hz : i + 1 - 1 - i = 0 := by omega
      rw [hz]
      simp
    · have hsep' : isSeparator l = false := by simpa using hsep
      rcases scanLines_cons_not_sep l ls' i st hsep' with ⟨st2, heq⟩
      rw [heq] at h
      rcases ih (i + 1) st2 e st' h with ⟨h1, h2, hl, hget, hsl⟩
      refine ⟨by omega, by simp only [List.length_cons]; omega, hl, ?_, hsl⟩
      have hk : e - 1 - i = (e - 1 - (i + 1)) + 1 := by omega
      rw [hk]
      simpa using hget

/-- Claim C9: every successfully parsed header starts at line 1, ends
strictly later, within the line count; line 1 matches the separator pattern
and so does the line at endLine (the closing separator); and the raw text is
exactly the first endLine lines joined with newlines (no trailing
newline). -/
theorem parseHeader_invariants (content : String) (p : ParsedHeader)
    (hp : parseHeader content = some p) :
    p.startLine = 1 ∧ 1 < p.endLine ∧ p.endLine ≤ (strLines content).length ∧
    (∃ l0, (strLines content)[0]? = some l0 ∧ isSeparator l0 = true) ∧
    (∃ lend, (strLines content)[p.endLine - 1]? = some lend ∧ isSeparator lend = true) ∧
    p.raw = joinLines ((strLines content).take p.endLine) := by
  match hls : strLines content with
  | [] => exact absurd hls (strLines_ne_nil content)
  | l0 :: rest =>
    rw [parseHeader, hls, parseHeaderLines] at hp
    by_cases hsep : isSeparator l0
    · rw [if_neg (by simp [hsep])] at hp
      match hscan : scanLines rest 1 initScan with
      | none => rw [hscan] at hp; exact absurd hp (by simp)
      | some (e, st) =>
        rw [hscan] at hp
        have hpeq := Option.some.inj hp
        rcases scanLines_sep rest 1 initScan e st hscan with ⟨h1, h2, hl, hget, hsl⟩
        subst hpeq
        refine ⟨rfl, h1, by simp only [List.length_cons]; omega, ⟨l0, by simp, hsep⟩, ⟨hl, ?_, hsl⟩, rfl⟩
        show (l0 :: rest)[e - 1]? = some hl
        have hk : e - 1 = (e - 1 - 1) + 1 := by omega
        rw [hk]
        simpa using hget
    · rw [if_pos (by simp [hsep])] at hp
      exact absurd hp (by simp)

/-- Witness for claim C9 on a two-line header shell. -/
theorem parseHeader_invariants_witness :
    parseHeader "//-\n//=\nx" = some ⟨"//-\n//=", 1, 2, 0, 0, [], none, none, none⟩ ∧
      (1 : Nat) < 2 ∧
      ("//-\n//=" : String) = joinLines ((strLines "//-\n//=\nx").take 2) :=
  ⟨by decide,
   (parseHeader_invariants "//-\n//=\nx" ⟨"//-\n//=", 1, 2, 0, 0, [], none, none, none⟩
     (by decide)).2.1,
   (parseHeader_invariants "//-\n//=\nx" ⟨"//-\n//=", 1, 2, 0, 0, [], none, none, none⟩
     (by decide)).2.2.2.2.2⟩

/-! ## Claim C3: replaceHeader -/

theorem strAppend_assoc (a b c : String) : a ++ b ++ c = a ++ (b ++ c) := by
  apply strExt
  simp [strData_append]

theorem strAppend_empty (a : String) : a ++ "" = a := by
  apply strExt
  rw [strData_append]
  have h : ("" : String).data = [] := by decide
  rw [h, List.append_nil]

theorem joinLines_nil : joinLines [] = "" := by
  decide

theorem strLines_empty : strLines "" = [""] := by
  decide

/-- Claim C3, counterexample. The claim asserts that the result always has
exactly one blank separator line between header and remaining content,
regardless of how many blank lines the remaining content begins with; when
the remaining content begins with two blank lines the source adds none and
both survive, and the result is also not of the claimed shape new header,
one blank line, then the remaining lines. -/
theorem replaceHeader_blank_cex :
    parseHeader "//-\n//-\n\n\nx" = some ⟨"//-\n//-", 1, 2, 0, 0, [], none, none, none⟩ ∧
    replaceHeader "//-\n//-\n\n\nx" "N"
        (some ⟨"//-\n//-", 1, 2, 0, 0, [], none, none, none⟩) = "N\n\n\nx" ∧
    strLines "N\n\n\nx" = ["N", "", "", "x"] ∧
    ¬ strLines "N\n\n\nx" =
        strLines "N" ++ [""] ++ ((strLines "//-\n//-\n\n\nx").drop 2) := by
  refine ⟨by decide, by decide, by decide, by decide⟩

/-- Claim C3, amended: with an existing header, the lines of the result are
the lines of the new header followed by the remaining lines (those after
endLine), with exactly one blank line inserted between them when the
remainder is empty or starts with a line that does not trim to the empty
string, and nothing inserted when the remainder already starts with a blank
line (so one blank separator line is guaranteed only when the remainder does
not begin with two or more blank lines). -/
theorem replaceHeader_spec (content newHeader : String) (h : ParsedHeader)
    (hp : parseHeader content = some h) :
    (∀ first rest, (strLines content).drop h.endLine = first :: rest → strTrim first ≠ "" →
      strLines (replaceHeader content newHeader (some h)) =
        strLines newHeader ++ "" :: first :: rest) ∧
    (∀ first rest, (strLines content).drop h.endLine = first :: rest → strTrim first = "" →
      strLines (replaceHeader content newHeader (some h)) =
        strLines newHeader ++ first :: rest) ∧
    ((strLines content).drop h.endLine = [] →
      strLines (replaceHeader content newHeader (some h)) = strLines newHeader ++ ["", ""]) := by
  have hnonl : ∀ l ∈ (strLines content).drop h.endLine, '\n' ∉ l.data := fun l hl =>
    mem_strLines_no_newline content l (List.drop_subset _ _ hl)
  refine ⟨fun first rest hafter hblank => ?_, fun first rest hafter hblank => ?_,
    fun hafter => ?_⟩
  · rw [replaceHeader, hafter]
    have hsepval : (match (first :: rest : List String) with
        | first :: _ => if strTrim first = "" then "" else "\n"
        | [] => "\n") = (if strTrim first = "" then "" else "\n") := rfl
    rw [hsepval, if_neg hblank]
    rw [strAppend_assoc, strLines_append]
    have hjoin : strLines ("\n" ++ joinLines (first :: rest)) =
        [""] ++ (first :: rest) := by
      have hone : ("\n" ++ joinLines (first :: rest)) =
          "" ++ "\n" ++ joinLines (first :: rest) := by
        apply strExt
        simp [strData_append]
      rw [hone, strLines_append, strLines_empty,
        strLines_join (first :: rest) (by simp) (hafter ▸ hnonl)]
    rw [hjoin]
    rfl
  · rw [replaceHeader, hafter]
    have hsepval : (match (first :: rest : List String) with
        | first :: _ => if strTrim first = "" then "" else "\n"
        | [] => "\n") = (if strTrim first = "" then "" else "\n") := rfl
    rw [hsepval, if_pos hblank]
    have hmid : newHeader ++ "\n" ++ "" ++ joinLines (first :: rest) =
        newHeader ++ "\n" ++ joinLines (first :: rest) := by
      apply strExt
      simp [strData_append]
    rw [hmid, strLines_append, strLines_join (first :: rest) (by simp) (hafter ▸ hnonl)]
  · rw [replaceHeader, hafter, joinLines_nil]
    rw [strAppend_assoc, strLines_append]
    have hend : strLines ("\n" ++ "") = ["", ""] := by decide
    rw [hend]

/-- Witness for the amended claim C3: when a single code line follows the
header, exactly one blank line separates the new header from it. -/
theorem replaceHeader_spec_witness :
    parseHeader "//-\n//-\ncode" = some ⟨"//-\n//-", 1, 2, 0, 0, [], none, none, none⟩ ∧
    (strLines "//-\n//-\ncode").drop 2 = ["code"] ∧
    strTrim "code" ≠ "" ∧
    strLines (replaceHeader "//-\n//-\ncode" "N"
        (some ⟨"//-\n//-", 1, 2, 0, 0, [], none, none, none⟩)) =
      strLines "N" ++ "" :: ["code"] :=
  ⟨by decide, by decide, by decide,
   (replaceHeader_spec "//-\n//-\ncode" "N" ⟨"//-\n//-", 1, 2, 0, 0, [], none, none, none⟩
     (by decide)).1 "code" [] (by decide) (by decide)⟩

/-! ## Claim C8: glob matching -/

theorem glob_fuel_congr : ∀ (n : Nat) (re : List GlobRe) (s : List Char) (f g : Nat),
    re.length + s.length ≤ n → re.length + s.length < f → re.length + s.length < g →
    globMatchF f re s = globMatchF g re s ∧ globSlashF f re s = globSlashF g re s := by
  intro n
  induction n with
  | zero =>
    intro re s f g hn hf hg
    obtain rfl := List.length_eq_zero.mp (show re.length = 0 by omega)
    obtain rfl := List.length_eq_zero.mp (show s.length = 0 by omega)
    match f, g, hf, hg with
    | f' + 1, g' + 1, _, _ => exact ⟨rfl, rfl⟩
  | succ n ih =>
    intro re s f g hn hf hg
    match f, g, hf, hg with
    | f' + 1, g' + 1, hf, hg =>
      constructor
      · match re with
        | [] => rfl
        | GlobRe.lit c :: rs =>
          match s with
          | [] => rfl
          | x :: xs =>
            simp only [globMatchF]
            have hih := (ih rs xs f' g'
              (by simp only [List.length_cons] at hn; omega)
              (by simp only [List.length_cons] at hf; omega)
              (by simp only [List.length_cons] at hg; omega)).1
            rw [hih]
        | GlobRe.oneNoSlash :: rs =>
          match s with
          | [] => rfl
          | x :: xs =>
            simp only [globMatchF]
            have hih := (ih rs xs f' g'
              (by simp only [List.length_cons] at hn; omega)
              (by simp only [List.length_cons] at hf; omega)
              (by simp only [List.length_cons] at hg; omega)).1
            rw [hih]
        | GlobRe.starNoSlash :: rs =>
          match s with
          | [] =>
            simp only [globMatchF]
            have hih := (ih rs [] f' g'
              (by simp only [List.length_cons] at hn ⊢; omega)
              (by simp only [List.length_cons] at hf; omega)
              (by simp only [List.length_cons] at hg; omega)).1
            rw [hih]
          | x :: xs =>
            simp only [globMatchF]
            have h1 := (ih rs (x :: xs) f' g'
              (by simp only [List.length_cons] at hn ⊢; omega)
              (by simp only [List.length_cons] at hf ⊢; omega)
              (by simp only [List.length_cons] at hg ⊢; omega)).1
            have h2 := (ih (GlobRe.starNoSlash :: rs) xs f' g'
              (by simp only [List.length_cons] at hn ⊢; omega)
              (by simp only [List.length_cons] at hf ⊢; omega)
              (by simp only [List.length_cons] at hg ⊢; omega)).1
            rw [h1, h2]
        | GlobRe.anyStar :: rs =>
          match s with
          | [] =>
            simp only [globMatchF]
            have hih := (ih rs [] f' g'
              (by simp only [List.length_cons] at hn ⊢; omega)
              (by simp only [List.length_cons] at hf; omega)
              (by simp only [List.length_cons] at hg; omega)).1
            rw [hih]
          | x :: xs =>
            simp only [globMatchF]
            have h1 := (ih rs (x :: xs) f' g'
              (by simp only [List.length_cons] at hn ⊢; omega)
              (by simp only [List.length_cons] at hf ⊢; omega)
              (by simp only [List.length_cons] at hg ⊢; omega)).1
            have h2 := (ih (GlobRe.anyStar :: rs) xs f' g'
              (by simp only [List.length_cons] at hn ⊢; omega)
              (by simp only [List.length_cons] at hf ⊢; omega)
              (by simp only [List.length_cons] at hg ⊢; omega)).1
            rw [h1, h2]
        | GlobRe.optDirs :: rs =>
          simp only [globMatchF]
          have h1 := (ih rs s f' g'
            (by simp only [List.length_cons] at hn ⊢; omega)
            (by simp only [List.length_cons] at hf ⊢; omega)
            (by simp only [List.length_cons] at hg ⊢; omega)).1
          have h2 := (ih rs s f' g'
            (by simp only [List.length_cons] at hn ⊢; omega)
            (by simp only [List.length_cons] at hf ⊢; omega)
            (by simp only [List.length_cons] at hg ⊢; omega)).2
          rw [h1, h2]
      · match s with
        | [] => rfl
        | c :: cs =>
          simp only [globSlashF]
          have h1 := (ih re cs f' g'
            (by simp only [List.length_cons] at hn ⊢; omega)
            (by simp only [List.length_cons] at hf ⊢; omega)
            (by simp only [List.length_cons] at hg ⊢; omega)).1
          have h2 := (ih re cs f' g'
            (by simp only [List.length_cons] at hn ⊢; omega)
            (by simp only [List.length_cons] at hf ⊢; omega)
            (by simp only [List.length_cons] at hg ⊢; omega)).2
          rw [h1, h2]

theorem globMatchF_fuel (re : List GlobRe) (s : List Char) (f g : Nat)
    (hf : re.length + s.length < f) (hg : re.length + s.length < g) :
    globMatchF f re s = globMatchF g re s :=
  (glob_fuel_congr (re.length + s.length) re s f g le_rfl hf hg).1

theorem lits_char : ∀ (cs : List Char) (s : List Char) (f : Nat),
    cs.length + s.length < f →
    (globMatchF f (cs.map GlobRe.lit) s = true ↔ s = cs) := by
  intro cs
  induction cs with
  | nil =>
    intro s f hf
    match f, hf with
    | f' + 1, _ =>
      show (s.isEmpty = true ↔ s = [])
      exact List.isEmpty_iff
  | cons c cs' ih =>
    intro s f hf
    match f, hf with
    | f' + 1, hf =>
      match s with
      | [] =>
        simp only [List.map_cons, globMatchF]
        simp
      | x :: xs =>
        simp only [List.map_cons, globMatchF, Bool.and_eq_true, beq_iff_eq]
        rw [ih xs f' (by simp only [List.length_cons, List.length_map] at hf ⊢; omega)]
        simp

theorem star_char : ∀ (s : List Char) (rs : List GlobRe) (f : Nat),
    (rs.length + 1) + s.length < f →
    (globMatchF f (GlobRe.starNoSlash :: rs) s = true ↔
      ∃ a b, s = a ++ b ∧ (∀ c ∈ a, ¬ c = '/') ∧
        globMatchF (rs.length + b.length + 1) rs b = true) := by
  intro s
  induction s with
  | nil =>
    intro rs f hf
    match f, hf with
    | f' + 1, hf =>
      simp only [globMatchF, Bool.or_false]
      rw [globMatchF_fuel rs [] f' (rs.length + 0 + 1)
        (by simp only [List.length_nil] at hf ⊢; omega)
        (by simp only [List.length_nil]; omega)]
      constructor
      · intro h
        exact ⟨[], [], rfl, by simp, by simpa using h⟩
      · rintro ⟨a, b, hab, _, hm⟩
        obtain ⟨rfl, rfl⟩ : a = [] ∧ b = [] := List.append_eq_nil.mp hab.symm
        simpa using hm
  | cons x xs ih =>
    intro rs f hf
    match f, hf with
    | f' + 1, hf =>
      simp only [globMatchF, Bool.or_eq_true, Bool.and_eq_true]
      constructor
      · rintro (h | ⟨hslash, h⟩)
        · refine ⟨[], x :: xs, rfl, by simp, ?_⟩
          rw [globMatchF_fuel rs (x :: xs) (rs.length + (x :: xs).length + 1) f'
            (by simp) (by simp only [List.length_cons] at hf ⊢; omega)]
          exact h
        · rw [ih rs f' (by simp only [List.length_cons] at hf ⊢; omega)] at h
          rcases h with ⟨a, b, hab, hns, hm⟩
          refine ⟨x :: a, b, by rw [hab]; rfl, ?_, hm⟩
          intro d hd
          rcases List.mem_cons.mp hd with rfl | hd
          · simpa using hslash
          · exact hns d hd
      · rintro ⟨a, b, hab, hns, hm⟩
        match a, hab with
        | [], hab =>
          left
          rw [globMatchF_fuel rs (x :: xs) f' (rs.length + (x :: xs).length + 1)
            (by simp only [List.length_cons] at hf ⊢; omega) (by simp)]
          rw [List.nil_append] at hab
          rw [hab]
          exact hm
        | a0 :: a', hab =>
          right
          have hx : x = a0 := by
            have := congrArg (fun l => List.head? l) hab
            simpa using this
          subst hx
          have hxs : xs = a' ++ b := by
            have := congrArg List.tail hab
            simpa using this
          refine ⟨by simpa using hns x (by simp), ?_⟩
          rw [ih rs f' (by simp only [List.length_cons] at hf ⊢; omega)]
          exact ⟨a', b, hxs, fun d hd => hns d (by simp [hd]), hm⟩

/-- Claim C8: a lone star never crosses a path separator. For every path,
matching against the pattern star dot t s holds exactly when the path ends
in dot t s and contains no slash; in particular the spec's two examples:
the path src slash file dot ts does not match the single-star pattern but
does match the globstar pattern. -/
theorem matchesGlob_single_star :
    (∀ p : String, matchesGlob p "*.ts" = true ↔
      (['.', 't', 's'] <:+ p.data ∧ '/' ∉ p.data)) ∧
    matchesGlob "src/file.ts" "*.ts" = false ∧
    matchesGlob "src/file.ts" "**/*.ts" = true := by
  refine ⟨fun p => ?_, by decide, by decide⟩
  have hre : globToRegex "*.ts".data =
      [GlobRe.starNoSlash, GlobRe.lit '.', GlobRe.lit 't', GlobRe.lit 's'] := by decide
  simp only [matchesGlob, reMatch]
  rw [hre]
  rw [star_char p.data [GlobRe.lit '.', GlobRe.lit 't', GlobRe.lit 's'] _
    (by simp only [List.length_cons, List.length_nil]; omega)]
  have hlits : ∀ b : List Char,
      (globMatchF ([GlobRe.lit '.', GlobRe.lit 't', GlobRe.lit 's'].length + b.length + 1)
        [GlobRe.lit '.', GlobRe.lit 't', GlobRe.lit 's'] b = true ↔ b = ['.', 't', 's']) :=
    fun b => lits_char ['.', 't', 's'] b _
      (by simp only [List.length_cons, List.length_nil]; omega)
  constructor
  · rintro ⟨a, b, hab, hns, hm⟩
    rw [hlits b] at hm
    subst hm
    rw [hab]
    refine ⟨⟨a, rfl⟩, ?_⟩
    intro hmem
    rcases List.mem_append.mp hmem with hmem | hmem
    · exact hns '/' hmem rfl
    · simp at hmem
  · rintro ⟨⟨a, ha⟩, hns⟩
    refine ⟨a, ['.', 't', 's'], ha.symm, ?_, (hlits _).mpr rfl⟩
    intro d hd hdeq
    subst hdeq
    exact hns (ha ▸ List.mem_append_left _ hd)

/-! ## Claim C1: infrastructure. List scanning helpers -/

theorem takeWhile_all {p : Char → Bool} {l : List Char} (h : ∀ c ∈ l, p c = true) :
    l.takeWhile p = l := by
  induction l with
  | nil => rfl
  | cons x xs ih =>
    rw [List.takeWhile_cons, if_pos (h x (by simp))]
    rw [ih (fun c hc => h c (by simp [hc]))]

theorem takeWhile_stop {p : Char → Bool} {x : Char} {xs : List Char} (h : p x = false) :
    (x :: xs).takeWhile p = [] := by
  rw [List.takeWhile_cons, if_neg (by simp [h])]

theorem listRepeat_ne_nil {l : List Char} {n : Nat} (hl : l ≠ []) (hn : 1 ≤ n) :
    listRepeat l n ≠ [] := by
  match n, hn with
  | m + 1, _ =>
    show l ++ listRepeat l m ≠ []
    simp [hl]

theorem listRepeat_all {p : Char → Bool} {l : List Char} (n : Nat)
    (h : ∀ c ∈ l, p c = true) : ∀ c ∈ listRepeat l n, p c = true := by
  induction n with
  | zero => simp [listRepeat]
  | succ m ih =>
    intro c hc
    rcases List.mem_append.mp hc with hc | hc
    · exact h c hc
    · exact ih c hc

theorem mem_replicate_space {c : Char} {n : Nat} (h : c ∈ List.replicate n ' ') : c = ' ' :=
  (List.eq_of_mem_replicate h)

/-! ## Claim C1: infrastructure. Decimal years -/

theorem natToDecAux_congr : ∀ (n f g : Nat), n < f → n < g →
    natToDecAux f n = natToDecAux g n := by
  intro n
  induction n using Nat.strong_induction_on with
  | _ n ih =>
    intro f g hf hg
    match f, g, hf, hg with
    | f' + 1, g' + 1, hf, hg =>
      by_cases h10 : n < 10
      · simp [natToDecAux, h10]
      · simp only [natToDecAux, h10, if_false]
        have hdiv : n / 10 < n := Nat.div_lt_self (by omega) (by omega)
        rw [ih (n / 10) hdiv f' g' (by omega) (by omega)]

theorem natToDecimal_step (y : Nat) (h : 10 ≤ y) :
    natToDecimal y = natToDecimal (y / 10) ++ [digitChar (y % 10)] := by
  show natToDecAux (y + 1) y = _
  have hy : ¬ y < 10 := by omega
  simp only [natToDecAux, hy, if_false]
  have hdiv : y / 10 < y := Nat.div_lt_self (by omega) (by omega)
  rw [natToDecAux_congr (y / 10) y (y / 10 + 1) (by omega) (by omega)]
  rfl

theorem natToDecimal_small (y : Nat) (h : y < 10) : natToDecimal y = [digitChar y] := by
  show natToDecAux (y + 1) y = _
  simp [natToDecAux, h]

theorem natToDecimal_four (y : Nat) (h1 : 1000 ≤ y) (h2 : y ≤ 9999) :
    natToDecimal y = [digitChar (y / 1000), digitChar (y / 100 % 10),
      digitChar (y / 10 % 10), digitChar (y % 10)] := by
  rw [natToDecimal_step y (by omega),
    natToDecimal_step (y / 10) (by omega),
    natToDecimal_step (y / 10 / 10) (by omega),
    natToDecimal_small (y / 10 / 10 / 10) (by omega)]
  have e1 : y / 10 / 10 = y / 100 := by omega
  rw [e1]
  have e2 : y / 100 / 10 = y / 1000 := by omega
  rw [e2]
  simp

theorem digitChar_isDigit {d : Nat} (h : d < 10) : (digitChar d).isDigit = true := by
  interval_cases d <;> decide

theorem digitChar_not_ws {d : Nat} (h : d < 10) : jsWS (digitChar d) = false := by
  interval_cases d <;> decide

theorem digitChar_ne_minus {d : Nat} (h : d < 10) : (digitChar d == '-') = false := by
  interval_cases d <;> decide

theorem digitChar_ne_newline {d : Nat} (h : d < 10) : ¬ digitChar d = '\n' := by
  interval_cases d <;> decide

theorem digitChar_charVal {d : Nat} (h : d < 10) : charVal (digitChar d) = d := by
  interval_cases d <;> decide

theorem digits4_year (y : Nat) (rest : List Char) (h1 : 1000 ≤ y) (h2 : y ≤ 9999) :
    digits4 (natToDecimal y ++ rest) = some (y, rest) := by
  rw [natToDecimal_four y h1 h2]
  show digits4 (digitChar (y / 1000) :: digitChar (y / 100 % 10) ::
    digitChar (y / 10 % 10) :: digitChar (y % 10) :: rest) = some (y, rest)
  rw [digits4]
  rw [if_pos]
  · congr 1
    rw [digitChar_charVal (by omega), digitChar_charVal (by omega),
      digitChar_charVal (by omega), digitChar_charVal (by omega)]
    congr 1
    omega
  · simp [digitChar_isDigit (show y / 1000 < 10 by omega),
      digitChar_isDigit (show y / 100 % 10 < 10 by omega),
      digitChar_isDigit (show y / 10 % 10 < 10 by omega),
      digitChar_isDigit (show y % 10 < 10 by omega)]

/-! ## Claim C1: infrastructure. Shapes of the generated lines -/

theorem strEmpty_append (a : String) : "" ++ a = a := by
  apply strExt
  rw [strData_append]
  have h : ("" : String).data = [] := by decide
  rw [h, List.nil_append]

theorem formatLineGo_chars (cols : List Column) : ∀ (res : String) (cur : Int) (c : Char),
    c ∈ (formatLineGo cols res cur).data →
    c ∈ res.data ∨ c = ' ' ∨ ∃ col ∈ cols, c ∈ col.content.data := by
  induction cols with
  | nil =>
    intro res cur c hc
    exact Or.inl hc
  | cons col rest ih =>
    intro res cur c hc
    simp only [formatLineGo] at hc
    by_cases h1 : 0 < col.position - cur
    · rw [if_pos h1] at hc
      rcases ih _ _ c hc with hr | hsp | ⟨col', hcol', hmem⟩
      · rw [strData_append, strData_append] at hr
        rcases List.mem_append.mp hr with hr | hr
        · rcases List.mem_append.mp hr with hr | hr
          · exact Or.inl hr
          · rw [spaces_data] at hr
            exact Or.inr (Or.inl (mem_replicate_space hr))
        · exact Or.inr (Or.inr ⟨col, by simp, hr⟩)
      · exact Or.inr (Or.inl hsp)
      · exact Or.inr (Or.inr ⟨col', by simp [hcol'], hmem⟩)
    · rw [if_neg h1] at hc
      by_cases h2 : 0 < cur
      · rw [if_pos h2] at hc
        rcases ih _ _ c hc with hr | hsp | ⟨col', hcol', hmem⟩
        · rw [strData_append, strData_append] at hr
          rcases List.mem_append.mp hr with hr | hr
          · rcases List.mem_append.mp hr with hr | hr
            · exact Or.inl hr
            · have hx : (" " : String).data = [' '] := by decide
              rw [hx] at hr
              simp at hr
              exact Or.inr (Or.inl hr)
          · exact Or.inr (Or.inr ⟨col, by simp, hr⟩)
        · exact Or.inr (Or.inl hsp)
        · exact Or.inr (Or.inr ⟨col', by simp [hcol'], hmem⟩)
      · rw [if_neg h2] at hc
        rcases ih _ _ c hc with hr | hsp | ⟨col', hcol', hmem⟩
        · rw [strData_append] at hr
          rcases List.mem_append.mp hr with hr | hr
          · exact Or.inl hr
          · exact Or.inr (Or.inr ⟨col, by simp, hr⟩)
        · exact Or.inr (Or.inl hsp)
        · exact Or.inr (Or.inr ⟨col', by simp [hcol'], hmem⟩)

theorem formatLine_chars (cols : List Column) (c : Char)
    (h : c ∈ (formatLine cols).data) : c = ' ' ∨ ∃ col ∈ cols, c ∈ col.content.data := by
  by_cases hne : cols.isEmpty
  · rw [formatLine, if_pos hne] at h
    have hx : ("" : String).data = [] := by decide
    rw [hx] at h
    simp at h
  · rw [formatLine, if_neg hne] at h
    rcases formatLineGo_chars (sortCols cols) "" 0 c h with hr | hsp | ⟨col', hcol', hmem⟩
    · have hx : ("" : String).data = [] := by decide
      rw [hx] at hr
      simp at hr
    · exact Or.inl hsp
    · exact Or.inr ⟨col', (List.perm_insertionSort colLE cols).mem_iff.mp hcol', hmem⟩

theorem formatLine_three (c0 n e : String) (ncol ecol : Int)
    (h1 : (c0.length : Int) < ncol)
    (h2 : ncol + n.length + 2 ≤ ecol) :
    (formatLine [⟨c0, 0⟩, ⟨n, ncol⟩, ⟨e, ecol⟩]).data =
      c0.data ++ List.replicate (ncol - c0.length).toNat ' ' ++ n.data ++
        List.replicate (ecol - ncol - n.length).toNat ' ' ++ e.data := by
  have hbc : colLE ⟨n, ncol⟩ ⟨e, ecol⟩ := by
    show ncol ≤ ecol
    omega
  have hab : colLE ⟨c0, (0 : Int)⟩ ⟨n, ncol⟩ := by
    show (0 : Int) ≤ ncol
    omega
  have hsort : sortCols [⟨c0, 0⟩, ⟨n, ncol⟩, ⟨e, ecol⟩] =
      [⟨c0, 0⟩, ⟨n, ncol⟩, ⟨e, ecol⟩] := by
    simp only [sortCols, List.insertionSort, List.orderedInsert]
    rw [if_pos hbc]
    simp only [List.orderedInsert]
    rw [if_pos hab]
  rw [formatLine, if_neg (by simp), hsort]
  simp only [formatLineGo]
  rw [if_neg (by simp), if_neg (by simp)]
  rw [if_pos (show (0 : Int) < ncol - ((0 : Int) + (c0.length : Int)) by omega)]
  rw [if_pos (show (0 : Int) < ecol - ((0 : Int) + (c0.length : Int) +
      (ncol - ((0 : Int) + (c0.length : Int))) + (n.length : Int)) by omega)]
  rw [strEmpty_append]
  rw [strData_append, strData_append, strData_append, strData_append, spaces_data,
    spaces_data]
  have hp1 : (ncol - ((0 : Int) + (c0.length : Int))).toNat = (ncol - c0.length).toNat := by
    omega
  have hp2 : (ecol - ((0 : Int) + (c0.length : Int) + (ncol - ((0 : Int) + (c0.length : Int)))
      + (n.length : Int))).toNat = (ecol - ncol - n.length).toNat := by omega
  rw [hp1, hp2]

/-! ## Claim C1: infrastructure. The lazy name-email split -/

theorem takeWhile_append_all {p : Char → Bool} {l1 : List Char} (l2 : List Char)
    (h : ∀ c ∈ l1, p c = true) : (l1 ++ l2).takeWhile p = l1 ++ l2.takeWhile p := by
  induction l1 with
  | nil => rfl
  | cons x xs ih =>
    rw [List.cons_append, List.takeWhile_cons, if_pos (h x (by simp)), List.cons_append,
      ih (fun c hc => h c (by simp [hc]))]

theorem drop_takeWhile {p : Char → Bool} (l : List Char) :
    l.drop (l.takeWhile p).length = l.dropWhile p := by
  nth_rewrite 2 [← List.takeWhile_append_dropWhile p l]
  rw [List.drop_left]

theorem takeWhile_stop_mem {p : Char → Bool} : ∀ (l1 : List Char) {x : Char} (l2 : List Char),
    p x = false → ∀ c ∈ (l1 ++ x :: l2).takeWhile p, c ∈ l1 := by
  intro l1
  induction l1 with
  | nil =>
    intro x l2 hx c hc
    rw [List.nil_append, takeWhile_stop hx] at hc
    simp at hc
  | cons a as ih =>
    intro x l2 hx c hc
    rw [List.cons_append, List.takeWhile_cons] at hc
    by_cases ha : p a
    · rw [if_pos ha] at hc
      rcases List.mem_cons.mp hc with rfl | hc
      · simp
      · exact List.mem_cons_of_mem a (ih l2 hx c hc)
    · rw [if_neg ha] at hc
      simp at hc

theorem takeWhile_append_stop {p : Char → Bool} : ∀ (l1 : List Char) (l2 : List Char),
    (∃ x ∈ l1, p x = false) → (l1 ++ l2).takeWhile p = l1.takeWhile p := by
  intro l1
  induction l1 with
  | nil =>
    intro l2 h
    simp at h
  | cons a as ih =>
    intro l2 ⟨x, hx, hpx⟩
    rw [List.cons_append, List.takeWhile_cons, List.takeWhile_cons]
    by_cases ha : p a
    · rw [if_pos ha, if_pos ha]
      rcases List.mem_cons.mp hx with rfl | hx
      · exact absurd ha (by simp [hpx])
      · rw [ih l2 ⟨x, hx, hpx⟩]
    · rw [if_neg ha, if_neg ha]

theorem dropWhile_ne_nil {p : Char → Bool} : ∀ (l : List Char),
    (∃ x ∈ l, p x = false) → l.dropWhile p ≠ [] := by
  intro l
  induction l with
  | nil => intro h; simp at h
  | cons a as ih =>
    intro ⟨x, hx, hpx⟩
    rw [List.dropWhile_cons]
    by_cases ha : p a
    · rw [if_pos ha]
      rcases List.mem_cons.mp hx with rfl | hx
      · exact absurd ha (by simp [hpx])
      · exact ih ⟨x, hx, hpx⟩
    · rw [if_neg ha]
      simp

theorem dropWhile_subset' {p : Char → Bool} (l : List Char) :
    ∀ c ∈ l.dropWhile p, c ∈ l := fun c hc => List.dropWhile_subset p hc

theorem getLastD_mem : ∀ (l : List Char) (d : Char), l ≠ [] → l.getLastD d ∈ l := by
  intro l
  induction l with
  | nil => intro d h; exact absurd rfl h
  | cons a as ih =>
    intro d _
    rw [List.getLastD_cons]
    match as, ih with
    | [], _ => simp [List.getLastD]
    | b :: bs, ih => exact List.mem_cons_of_mem a (ih a (by simp))

theorem emailTok_false_of_no_at {t : List Char} (h : '@' ∉ t) : emailTok t = false := by
  rw [emailTok]
  by_contra hcon
  have htrue : (t.drop 1).dropLast.contains '@' = true := by
    simpa using hcon
  have hmem : '@' ∈ (t.drop 1).dropLast := by
    simpa using htrue
  exact h (List.drop_subset 1 t (List.dropLast_subset _ hmem))

theorem checkGap_gap (g : Nat) (em : List Char) (hg : 2 ≤ g) (hem : em ≠ [])
    (hws : ∀ c ∈ em, jsWS c = false) (htok : emailTok em = true) :
    checkGap (List.replicate g ' ' ++ em) = some (String.mk em) := by
  have hw : (List.replicate g ' ' ++ em).takeWhile jsWS = List.replicate g ' ' := by
    rw [takeWhile_append_all em (fun c hc => by rw [mem_replicate_space hc]; decide)]
    match em, hem with
    | c :: cs, _ =>
      rw [takeWhile_stop (hws c (by simp))]
      simp
  rw [checkGap, hw]
  rw [if_neg (by simp [List.length_replicate]; omega)]
  have hdrop : (List.replicate g ' ' ++ em).drop (List.replicate g ' ').length = em :=
    List.drop_left _ _
  rw [List.length_replicate] at hdrop ⊢
  rw [hdrop]
  rw [takeWhile_all (fun c hc => by simp [hws c hc])]
  rw [if_pos htok]

theorem checkGap_inside (nm' : List Char) (g : Nat) (em : List Char) (hnm' : nm' ≠ [])
    (hlast : jsWS (nm'.getLastD 'x') = false) (hat : '@' ∉ nm') (hg : 2 ≤ g) :
    checkGap (nm' ++ List.replicate g ' ' ++ em) = none := by
  have hex : ∃ x ∈ nm', jsWS x = false := ⟨nm'.getLastD 'x', getLastD_mem nm' 'x' hnm', hlast⟩
  have hw : (nm' ++ List.replicate g ' ' ++ em).takeWhile jsWS = nm'.takeWhile jsWS := by
    rw [List.append_assoc, takeWhile_append_stop nm' _ hex]
  rw [checkGap, hw]
  by_cases hlen : (nm'.takeWhile jsWS).length < 2
  · rw [if_pos hlen]
  · rw [if_neg hlen]
    have hdrop : (nm' ++ List.replicate g ' ' ++ em).drop (nm'.takeWhile jsWS).length =
        nm'.dropWhile jsWS ++ List.replicate g ' ' ++ em := by
      rw [List.append_assoc, List.append_assoc]
      rw [List.drop_append_of_le_length (List.Sublist.length_le (List.takeWhile_sublist _))]
      rw [drop_takeWhile]
    rw [hdrop]
    have hrep : List.replicate g ' ' ++ em = ' ' :: (List.replicate (g - 1) ' ' ++ em) := by
      match g, hg with
      | n + 1, _ => simp [List.replicate_succ]
    have hsub : ∀ c ∈ (nm'.dropWhile jsWS ++ List.replicate g ' ' ++ em).takeWhile
        (fun c => !jsWS c), c ∈ nm' := by
      intro c hc
      rw [List.append_assoc, hrep] at hc
      have hspace : (fun c => !jsWS c) ' ' = false := by decide
      exact dropWhile_subset' nm' c
        (takeWhile_stop_mem (nm'.dropWhile jsWS) _ hspace c hc)
    rw [if_neg]
    rw [emailTok_false_of_no_at]
    · simp
    · intro hmem
      exact hat (hsub '@' hmem)

theorem findSplitGo_gen : ∀ (nm acc : List Char) (g : Nat) (em : List Char),
    nm ≠ [] → (∀ c ∈ nm, isDotChar c = true) → '@' ∉ nm →
    jsWS (nm.getLastD 'x') = false → 2 ≤ g → em ≠ [] →
    (∀ c ∈ em, jsWS c = false) → emailTok em = true →
    findSplitGo acc (nm ++ List.replicate g ' ' ++ em) =
      some (String.mk (acc ++ nm), String.mk em) := by
  intro nm
  induction nm with
  | nil => intro acc g em h; exact absurd rfl h
  | cons c nm' ih =>
    intro acc g em _ hdot hat hlast hg hem hws htok
    match nm' with
    | [] =>
      show findSplitGo acc (c :: (List.replicate g ' ' ++ em)) = _
      rw [findSplitGo, if_pos (hdot c (by simp)), checkGap_gap g em hg hem hws htok]
    | d :: nm'' =>
      show findSplitGo acc (c :: ((d :: nm'') ++ List.replicate g ' ' ++ em)) = _
      rw [findSplitGo, if_pos (hdot c (by simp))]
      rw [checkGap_inside (d :: nm'') g em (by simp)
        (by rw [List.getLastD_cons]; rw [List.getLastD_cons, List.getLastD_cons] at hlast; exact hlast)
        (fun hmem => hat (by simp [hmem])) hg]
      rw [ih (acc ++ [c]) g em (by simp) (fun x hx => hdot x (by simp [List.mem_cons.mp hx]))
        (fun hmem => hat (by simp [hmem]))
        (by rw [List.getLastD_cons]; rw [List.getLastD_cons, List.getLastD_cons] at hlast; exact hlast) hg hem hws htok]
      rw [List.append_assoc]
      rfl

theorem findSplit_name_email (nm em : List Char) (g : Nat)
    (hnm : nm ≠ []) (hdot : ∀ c ∈ nm, isDotChar c = true) (hat : '@' ∉ nm)
    (hlast : jsWS (nm.getLastD 'x') = false) (hg : 2 ≤ g) (hem : em ≠ [])
    (hws : ∀ c ∈ em, jsWS c = false) (htok : emailTok em = true) :
    findSplit (nm ++ List.replicate g ' ' ++ em) = some (String.mk nm, String.mk em) := by
  rw [findSplit, findSplitGo_gen nm [] g em hnm hdot hat hlast hg hem hws htok]
  rw [List.nil_append]

/-! ## Claim C1: infrastructure. Case-insensitive literals -/

theorem matchCIlit_append : ∀ (lit pre rest : List Char),
    pre.map Char.toLower = lit → matchCIlit lit (pre ++ rest) = some rest := by
  intro lit
  induction lit with
  | nil =>
    intro pre rest h
    obtain rfl : pre = [] := by simpa using h
    rfl
  | cons p ps ih =>
    intro pre rest h
    match pre, h with
    | c :: cs, h =>
      rw [List.map_cons] at h
      injection h with h1 h2
      rw [List.cons_append, matchCIlit, if_pos (by simp [h1])]
      exact ih cs rest h2

theorem matchCIlit_none : ∀ (lit s : List Char),
    lit.isPrefixOf (s.map Char.toLower) = false → matchCIlit lit s = none := by
  intro lit
  induction lit with
  | nil => intro s h; simp [List.isPrefixOf] at h
  | cons p ps ih =>
    intro s h
    match s with
    | [] => rfl
    | c :: cs =>
      rw [List.map_cons, List.isPrefixOf] at h
      rw [matchCIlit]
      by_cases hc : c.toLower == p
      · rw [if_pos hc]
        apply ih
        have hpc : (p == c.toLower) = true := by
          have := eq_of_beq hc
          simp [this]
        simpa [hpc] using h
      · rw [if_neg hc]

/-- If the first nine lowered characters of the name are not the word
copyright, the case-insensitive literal cannot match at the name even when
white space follows: a shorter name puts a space where a letter of the
literal is required. -/
theorem copyright_block (nm rest' : List Char)
    (hpre : "copyright".data.isPrefixOf (nm.map Char.toLower) = false) :
    matchCIlit "copyright".data (nm ++ ' ' :: rest') = none := by
  apply matchCIlit_none
  rw [List.map_append, List.map_cons]
  have hsp : Char.toLower ' ' = ' ' := by decide
  rw [hsp]
  by_contra hcon
  have htrue : "copyright".data.isPrefixOf
      (nm.map Char.toLower ++ ' ' :: List.map Char.toLower rest') = true := by
    simpa using hcon
  have hprefix := List.isPrefixOf_iff_prefix.mp htrue
  have htake := List.prefix_iff_eq_take.mp hprefix
  by_cases hlen : 9 ≤ (nm.map Char.toLower).length
  · have h9 : ("copyright".data).length = 9 := by decide
    rw [h9, List.take_append_of_le_length hlen] at htake
    have hp2 : "copyright".data <+: nm.map Char.toLower := by
      rw [htake]
      exact List.take_prefix _ _
    exact absurd (List.isPrefixOf_iff_prefix.mpr hp2) (by simp [hpre])
  · push_neg at hlen
    have hk := congrArg (fun l => l[(nm.map Char.toLower).length]?) htake
    simp only at hk
    have h9 : ("copyright".data).length = 9 := by decide
    rw [h9] at hk
    rw [List.getElem?_take_of_lt hlen] at hk
    rw [List.getElem?_append_right le_rfl] at hk
    simp only [Nat.sub_self] at hk
    have hsp2 : (' ' :: List.map Char.toLower rest')[0]? = some ' ' := by simp
    rw [hsp2] at hk
    have hlen2 : (nm.map Char.toLower).length < 9 := hlen
    set k := (nm.map Char.toLower).length with hkdef
    interval_cases k <;> simp at hk

/-! ## Claim C1: infrastructure. The copyright and contributor lines -/

theorem dropWhile_stop_append (c : Char) (t Y : List Char) (hc : jsWS c = false) :
    ((c :: t) ++ Y).dropWhile jsWS = (c :: t) ++ Y := by
  rw [List.cons_append, List.dropWhile_cons, if_neg (by simp [hc])]

theorem dropWhile_ws_year (y : Nat) (rest : List Char) (h1 : 1000 ≤ y) (h2 : y ≤ 9999) :
    (natToDecimal y ++ rest).dropWhile jsWS = natToDecimal y ++ rest := by
  rw [natToDecimal_four y h1 h2]
  exact dropWhile_stop_append _ _ rest (digitChar_not_ws (by omega))

theorem takeWhile_ws_gap (p1 : Nat) (nm rest : List Char) (hnm : nm ≠ [])
    (hhead : jsWS (nm.headD 'x') = false) :
    (List.replicate p1 ' ' ++ (nm ++ rest)).takeWhile jsWS = List.replicate p1 ' ' := by
  rw [takeWhile_append_all _ (fun c hc => by rw [mem_replicate_space hc]; decide)]
  match nm, hnm with
  | h :: t, _ =>
    rw [List.cons_append, takeWhile_stop (by simpa using hhead)]
    simp

theorem matchCopyright_single (y1 : Nat) (nm em : List Char) (p1 p2 : Nat) (line : String)
    (hline : line.data = "// Copyright (c) ".data ++ natToDecimal y1 ++
      (List.replicate p1 ' ' ++ (nm ++ (List.replicate p2 ' ' ++ em))))
    (hylo : 1000 ≤ y1) (hyhi : y1 ≤ 9999) (hp1 : 1 ≤ p1) (hp2 : 2 ≤ p2)
    (hnm : nm ≠ []) (hdot : ∀ c ∈ nm, isDotChar c = true) (hat : '@' ∉ nm)
    (hhead : jsWS (nm.headD 'x') = false) (hlast : jsWS (nm.getLastD 'x') = false)
    (hem : em ≠ []) (hws : ∀ c ∈ em, jsWS c = false) (htok : emailTok em = true) :
    matchCopyright line = some (y1, none, String.mk nm, String.mk em) := by
  have hsplit : "// Copyright (c) ".data =
      ['/', '/', ' '] ++ "Copyright".data ++ [' '] ++ "(c)".data ++ [' '] := by decide
  rw [matchCopyright, hline, hsplit]
  simp only [List.append_assoc, List.cons_append, List.nil_append]
  rw [matchCopyrightData]
  rw [List.dropWhile_cons, if_pos (by decide)]
  rw [List.dropWhile_cons, if_neg (by decide)]
  have hsplitC : ('C' :: 'o' :: 'p' :: 'y' :: 'r' :: 'i' :: 'g' :: 'h' :: 't' ::
      (' ' :: '(' :: 'c' :: ')' :: ' ' :: (natToDecimal y1 ++ (List.replicate p1 ' ' ++
        (nm ++ (List.replicate p2 ' ' ++ em)))))) =
      (['C', 'o', 'p', 'y', 'r', 'i', 'g', 'h', 't'] : List Char) ++
      (' ' :: '(' :: 'c' :: ')' :: ' ' :: (natToDecimal y1 ++ (List.replicate p1 ' ' ++
        (nm ++ (List.replicate p2 ' ' ++ em))))) := rfl
  rw [hsplitC, matchCIlit_append "copyright".data ['C', 'o', 'p', 'y', 'r', 'i', 'g', 'h', 't']
    _ (by decide)]
  simp only []
  rw [List.dropWhile_cons, if_pos (by decide)]
  rw [List.dropWhile_cons, if_neg (by decide)]
  have hsplitP : ('(' :: 'c' :: ')' :: (' ' :: (natToDecimal y1 ++ (List.replicate p1 ' ' ++
      (nm ++ (List.replicate p2 ' ' ++ em)))))) =
      (['(', 'c', ')'] : List Char) ++ (' ' :: (natToDecimal y1 ++ (List.replicate p1 ' ' ++
      (nm ++ (List.replicate p2 ' ' ++ em))))) := rfl
  rw [hsplitP, matchCIlit_append "(c)".data ['(', 'c', ')'] _ (by decide)]
  simp only []
  rw [List.dropWhile_cons, if_pos (by decide)]
  rw [dropWhile_ws_year y1 _ hylo hyhi]
  rw [digits4_year y1 _ hylo hyhi]
  simp only []
  have hrep : List.replicate p1 ' ' ++ (nm ++ (List.replicate p2 ' ' ++ em)) =
      ' ' :: (List.replicate (p1 - 1) ' ' ++ (nm ++ (List.replicate p2 ' ' ++ em))) := by
    match p1, hp1 with
    | k + 1, _ => simp [List.replicate_succ]
  rw [hrep]
  simp only []
  rw [if_neg (show ¬ (' ' = '-') by decide)]
  simp only []
  rw [← hrep]
  rw [takeWhile_ws_gap p1 nm _ hnm hhead]
  rw [if_neg (by simp [List.length_replicate]; omega)]
  have hdrop : (List.replicate p1 ' ' ++ (nm ++ (List.replicate p2 ' ' ++ em))).drop
      (List.replicate p1 ' ').length = nm ++ (List.replicate p2 ' ' ++ em) :=
    List.drop_left _ _
  rw [List.length_replicate] at hdrop
  rw [List.length_replicate, hdrop]
  rw [← List.append_assoc]
  rw [findSplit_name_email nm em p2 hnm hdot hat hlast hp2 hem hws htok]

theorem matchCopyright_range (y1 y2 : Nat) (nm em : List Char) (p1 p2 : Nat) (line : String)
    (hline : line.data = "// Copyright (c) ".data ++ natToDecimal y1 ++
      ('-' :: (natToDecimal y2 ++ (List.replicate p1 ' ' ++ (nm ++
        (List.replicate p2 ' ' ++ em))))))
    (hylo : 1000 ≤ y1) (hyhi : y1 ≤ 9999) (hylo2 : 1000 ≤ y2) (hyhi2 : y2 ≤ 9999)
    (hp1 : 1 ≤ p1) (hp2 : 2 ≤ p2)
    (hnm : nm ≠ []) (hdot : ∀ c ∈ nm, isDotChar c = true) (hat : '@' ∉ nm)
    (hhead : jsWS (nm.headD 'x') = false) (hlast : jsWS (nm.getLastD 'x') = false)
    (hem : em ≠ []) (hws : ∀ c ∈ em, jsWS c = false) (htok : emailTok em = true) :
    matchCopyright line = some (y1, some y2, String.mk nm, String.mk em) := by
  have hsplit : "// Copyright (c) ".data =
      ['/', '/', ' '] ++ "Copyright".data ++ [' '] ++ "(c)".data ++ [' '] := by decide
  rw [matchCopyright, hline, hsplit]
  simp only [List.append_assoc, List.cons_append, List.nil_append]
  rw [matchCopyrightData]
  rw [List.dropWhile_cons, if_pos (by decide)]
  rw [List.dropWhile_cons, if_neg (by decide)]
  have hsplitC : ('C' :: 'o' :: 'p' :: 'y' :: 'r' :: 'i' :: 'g' :: 'h' :: 't' ::
      (' ' :: '(' :: 'c' :: ')' :: ' ' :: (natToDecimal y1 ++ ('-' :: (natToDecimal y2 ++
        (List.replicate p1 ' ' ++ (nm ++ (List.replicate p2 ' ' ++ em)))))))) =
      (['C', 'o', 'p', 'y', 'r', 'i', 'g', 'h', 't'] : List Char) ++
      (' ' :: '(' :: 'c' :: ')' :: ' ' :: (natToDecimal y1 ++ ('-' :: (natToDecimal y2 ++
        (List.replicate p1 ' ' ++ (nm ++ (List.replicate p2 ' ' ++ em))))))) := rfl
  rw [hsplitC, matchCIlit_append "copyright".data ['C', 'o', 'p', 'y', 'r', 'i', 'g', 'h', 't']
    _ (by decide)]
  simp only []
  rw [List.dropWhile_cons, if_pos (by decide)]
  rw [List.dropWhile_cons, if_neg (by decide)]
  have hsplitP : ('(' :: 'c' :: ')' :: (' ' :: (natToDecimal y1 ++ ('-' :: (natToDecimal y2 ++
      (List.replicate p1 ' ' ++ (nm ++ (List.replicate p2 ' ' ++ em)))))))) =
      (['(', 'c', ')'] : List Char) ++ (' ' :: (natToDecimal y1 ++ ('-' :: (natToDecimal y2 ++
      (List.replicate p1 ' ' ++ (nm ++ (List.replicate p2 ' ' ++ em))))))) := rfl
  rw [hsplitP, matchCIlit_append "(c)".data ['(', 'c', ')'] _ (by decide)]
  simp only []
  rw [List.dropWhile_cons, if_pos (by decide)]
  rw [dropWhile_ws_year y1 _ hylo hyhi]
  rw [digits4_year y1 _ hylo hyhi]
  simp only []
  rw [if_pos True.intro]
  rw [digits4_year y2 _ hylo2 hyhi2]
  simp only []
  have hrep : List.replicate p1 ' ' ++ (nm ++ (List.replicate p2 ' ' ++ em)) =
      ' ' :: (List.replicate (p1 - 1) ' ' ++ (nm ++ (List.replicate p2 ' ' ++ em))) := by
    match p1, hp1 with
    | k + 1, _ => simp [List.replicate_succ]
  rw [takeWhile_ws_gap p1 nm _ hnm hhead]
  rw [if_neg (by simp [List.length_replicate]; omega)]
  have hdrop : (List.replicate p1 ' ' ++ (nm ++ (List.replicate p2 ' ' ++ em))).drop
      (List.replicate p1 ' ').length = nm ++ (List.replicate p2 ' ' ++ em) :=
    List.drop_left _ _
  rw [List.length_replicate] at hdrop
  rw [List.length_replicate, hdrop]
  rw [← List.append_assoc]
  rw [findSplit_name_email nm em p2 hnm hdot hat hlast hp2 hem hws htok]

theorem dropWhile_append_all {p : Char → Bool} {l1 : List Char} (l2 : List Char)
    (h : ∀ c ∈ l1, p c = true) : (l1 ++ l2).dropWhile p = l2.dropWhile p := by
  induction l1 with
  | nil => rfl
  | cons x xs ih =>
    rw [List.cons_append, List.dropWhile_cons, if_pos (h x (by simp)),
      ih (fun c hc => h c (by simp [hc]))]

/-- On a continuation line the copyright pattern fails (the lowered name does
not begin with the word copyright) and the contributor pattern captures the
name and the email. -/
theorem contLine_matchers (nm em : List Char) (p1 p2 : Nat) (line : String)
    (hline : line.data = '/' :: '/' :: (List.replicate p1 ' ' ++ (nm ++
      (List.replicate p2 ' ' ++ em))))
    (hp1 : 10 ≤ p1) (hp2 : 2 ≤ p2)
    (hnm : nm ≠ []) (hdot : ∀ c ∈ nm, isDotChar c = true) (hat : '@' ∉ nm)
    (hhead : jsWS (nm.headD 'x') = false) (hlast : jsWS (nm.getLastD 'x') = false)
    (hpre : "copyright".data.isPrefixOf (nm.map Char.toLower) = false)
    (hem : em ≠ []) (hws : ∀ c ∈ em, jsWS c = false) (htok : emailTok em = true) :
    matchCopyright line = none ∧
      matchContributor line = some (String.mk nm, String.mk em) := by
  constructor
  · rw [matchCopyright, hline, matchCopyrightData]
    rw [dropWhile_append_all _ (fun c hc => by rw [mem_replicate_space hc]; decide)]
    have hnmc : nm ++ (List.replicate p2 ' ' ++ em) =
        nm ++ (' ' :: (List.replicate (p2 - 1) ' ' ++ em)) := by
      match p2, hp2 with
      | k + 1, _ => simp [List.replicate_succ]
    match hv : nm, hnm with
    | h :: t, _ =>
      rw [dropWhile_stop_append h t _ (by simpa [hv] using hhead)]
      rw [← hv] at hhead hdot hat hlast hpre ⊢
      rw [hv]
      rw [show (h :: t) ++ (List.replicate p2 ' ' ++ em) =
        (h :: t) ++ (' ' :: (List.replicate (p2 - 1) ' ' ++ em)) from by
          match p2, hp2 with
          | k + 1, _ => simp [List.replicate_succ]]
      rw [copyright_block (h :: t) _ (hv ▸ hpre)]
  · rw [matchContributor, hline, matchContributorData]
    rw [takeWhile_ws_gap p1 nm _ hnm hhead]
    rw [if_neg (by simp [List.length_replicate]; omega)]
    have hdrop : (List.replicate p1 ' ' ++ (nm ++ (List.replicate p2 ' ' ++ em))).drop
        (List.replicate p1 ' ').length = nm ++ (List.replicate p2 ' ' ++ em) :=
      List.drop_left _ _
    rw [List.length_replicate] at hdrop
    rw [List.length_replicate, hdrop]
    rw [← List.append_assoc]
    rw [findSplit_name_email nm em p2 hnm hdot hat hlast hp2 hem hws htok]

/-- Any line whose text is two slashes, a space, then anything, is not a
separator, does not match the copyright pattern unless the character after
the space starts the word copyright case-insensitively, and never matches
the contributor pattern (one space is fewer than ten). Specialized here to
the SPDX line, whose fourth character is an S. -/
theorem spdx_line_matchers (line : String) (t : List Char)
    (hline : line.data = '/' :: '/' :: ' ' :: 'S' :: t) :
    isSeparator line = false ∧ matchCopyright line = none ∧
      matchContributor line = none := by
  refine ⟨?_, ?_, ?_⟩
  · rw [isSeparator, hline, isSeparatorData]
    simp
  · rw [matchCopyright, hline, matchCopyrightData]
    rw [List.dropWhile_cons, if_pos (by decide)]
    rw [List.dropWhile_cons, if_neg (by decide)]
    rw [matchCIlit, if_neg (by decide)]
  · rw [matchContributor, hline, matchContributorData]
    rw [List.takeWhile_cons, if_pos (show jsWS ' ' = true by decide), takeWhile_stop
      (show jsWS 'S' = false by decide)]
    rw [if_pos (by simp)]

theorem isSeparator_false_of_space (line : String) (t : List Char)
    (hline : line.data = '/' :: '/' :: ' ' :: t) : isSeparator line = false := by
  rw [isSeparator, hline, isSeparatorData]
  simp

theorem copyLine_data (c0 n e : String) (ncol ecol : Int)
    (h1 : (c0.length : Int) < ncol) (h2 : ncol + n.length + 2 ≤ ecol) :
    (formatLine [⟨c0, 0⟩, ⟨n, ncol⟩, ⟨e, ecol⟩]).data =
      c0.data ++ (List.replicate (ncol - c0.length).toNat ' ' ++ (n.data ++
        (List.replicate (ecol - ncol - n.length).toNat ' ' ++ e.data))) := by
  rw [formatLine_three c0 n e ncol ecol h1 h2]
  simp [List.append_assoc]

theorem formatLineGo_zero_head (c0 : String) (rest : List Column) :
    formatLineGo (⟨c0, 0⟩ :: rest) "" 0 =
      formatLineGo rest ("" ++ c0) ((0 : Int) + c0.length) := by
  simp only [formatLineGo]
  rw [if_neg (by simp), if_neg (by simp)]

theorem formatLine_starts (c0 u m : String) (uc mc : Int) (huc : 0 ≤ uc) (hmc : 0 ≤ mc) :
    ∃ t, (formatLine [⟨c0, 0⟩, ⟨u, uc⟩, ⟨m, mc⟩]).data = c0.data ++ t := by
  have hsort : ∃ L, sortCols [⟨c0, 0⟩, ⟨u, uc⟩, ⟨m, mc⟩] = ⟨c0, 0⟩ :: L := by
    by_cases hum : colLE ⟨u, uc⟩ ⟨m, mc⟩
    · exact ⟨[⟨u, uc⟩, ⟨m, mc⟩], by
        simp [sortCols, List.insertionSort, List.orderedInsert, hum,
          show colLE ⟨c0, 0⟩ ⟨u, uc⟩ from huc]⟩
    · exact ⟨[⟨m, mc⟩, ⟨u, uc⟩], by
        simp [sortCols, List.insertionSort, List.orderedInsert, hum,
          show colLE ⟨c0, 0⟩ ⟨m, mc⟩ from hmc]⟩
  rcases hsort with ⟨L, hL⟩
  rw [formatLine, if_neg (by simp), hL, formatLineGo_zero_head]
  rcases formatLineGo_data_prefix L ("" ++ c0) ((0 : Int) + c0.length) with ⟨t, ht⟩
  exact ⟨t, by rw [ht, strEmpty_append]⟩

theorem generateSeparator_sep (w : Int) (ch : String) (hw : 3 ≤ w) (hch : ch.data ≠ [])
    (hall : ∀ c ∈ ch.data, c = '-' ∨ c = '=' ∨ c = '*') :
    isSeparator (generateSeparator w ch "//") = true ∧
      '\n' ∉ (generateSeparator w ch "//").data := by
  have h2 : ("//" : String).length = 2 := by decide
  have hgen : generateSeparator w ch "//" =
      "//" ++ strRepeat ch (w - (("//" : String).length : Int)).toNat := by
    simp only [generateSeparator]
    rw [if_neg (show ¬ (w - (("//" : String).length : Int) ≤ 0) by rw [h2]; omega)]
  have hdata : (generateSeparator w ch "//").data =
      '/' :: '/' :: listRepeat ch.data (w - (("//" : String).length : Int)).toNat := by
    rw [hgen, strData_append]
    have hsl : ("//" : String).data = ['/', '/'] := by decide
    rw [hsl]
    rfl
  have hn1 : 1 ≤ (w - (("//" : String).length : Int)).toNat := by rw [h2]; omega
  have hne := listRepeat_ne_nil hch hn1
  have hball : ∀ x ∈ listRepeat ch.data (w - (("//" : String).length : Int)).toNat,
      (x == '-' || x == '=' || x == '*') = true :=
    listRepeat_all _ (fun x hx => by rcases hall x hx with rfl | rfl | rfl <;> rfl)
  constructor
  · rw [isSeparator, hdata, isSeparatorData]
    match hr : listRepeat ch.data (w - (("//" : String).length : Int)).toNat, hne with
    | c :: cs, _ =>
      rw [hr] at hball
      simp only [List.isEmpty_cons, Bool.not_false, Bool.true_and, List.all_eq_true]
      exact hball
  · rw [hdata]
    intro hmem
    simp only [List.mem_cons] at hmem
    rcases hmem with h | h | hmem
    · exact absurd h (by decide)
    · exact absurd h (by decide)
    · have := hball '\n' hmem
      simp at this

theorem formatLine_no_newline (cols : List Column)
    (h : ∀ col ∈ cols, '\n' ∉ col.content.data) : '\n' ∉ (formatLine cols).data := by
  intro hmem
  rcases formatLine_chars cols '\n' hmem with hsp | ⟨col, hcol, hm⟩
  · exact absurd hsp (by decide)
  · exact h col hcol hm

theorem noNL_year (y : Nat) (h1 : 1000 ≤ y) (h2 : y ≤ 9999) :
    '\n' ∉ natToDecimal y := by
  rw [natToDecimal_four y h1 h2]
  intro hmem
  have hmod : y % 10 < 10 := Nat.mod_lt _ (by omega)
  have hmod2 : y / 10 % 10 < 10 := Nat.mod_lt _ (by omega)
  have hmod3 : y / 100 % 10 < 10 := Nat.mod_lt _ (by omega)
  have hdiv : y / 1000 < 10 := by omega
  simp only [List.mem_cons, List.not_mem_nil, or_false] at hmem
  rcases hmem with h | h | h | h
  · exact digitChar_ne_newline hdiv h.symm
  · exact digitChar_ne_newline hmod3 h.symm
  · exact digitChar_ne_newline hmod2 h.symm
  · exact digitChar_ne_newline hmod h.symm

theorem noNL_name {nm : List Char} (hdot : ∀ c ∈ nm, isDotChar c = true) : '\n' ∉ nm := by
  intro hmem
  have := hdot '\n' hmem
  simp [isDotChar] at this

theorem noNL_email {em : List Char} (hws : ∀ c ∈ em, jsWS c = false) : '\n' ∉ em := by
  intro hmem
  have := hws '\n' hmem
  simp [jsWS] at this

theorem spdxLine_shape (cfg : ResolvedConfig) (hpre : cfg.commentPrefix = "//")
    (huc : 0 ≤ cfg.licenseUrlColumn) (hmc : 0 ≤ cfg.maintainerColumn) :
    ∃ t, (formatSpdxLine cfg).data = '/' :: '/' :: ' ' :: 'S' :: t := by
  simp only [formatSpdxLine, hpre]
  rcases formatLine_starts ("//" ++ " SPDX-License-Identifier: " ++ cfg.spdxLicense)
    cfg.licenseUrl cfg.maintainerEmail cfg.licenseUrlColumn cfg.maintainerColumn huc hmc
    with ⟨t0, ht⟩
  refine ⟨"PDX-License-Identifier: ".data ++ cfg.spdxLicense.data ++ t0, ?_⟩
  rw [ht, strData_append, strData_append]
  have hl : ("//" : String).data ++ (" SPDX-License-Identifier: " : String).data =
      '/' :: '/' :: ' ' :: 'S' :: "PDX-License-Identifier: ".data := by decide
  rw [List.append_assoc ("//" : String).data, ← List.append_assoc ("//" : String).data, hl]
  simp [List.append_assoc]

/-- A name the copyright and contributor patterns capture exactly: nonempty,
every character matched by the dot, no at sign, neither end white-space, and
not beginning with the word copyright case-insensitively. -/
@[reducible] def goodName (nm : List Char) : Prop :=
  nm ≠ [] ∧ (∀ c ∈ nm, isDotChar c = true) ∧ '@' ∉ nm ∧
    jsWS (nm.headD 'x') = false ∧ jsWS (nm.getLastD 'x') = false ∧
    "copyright".data.isPrefixOf (nm.map Char.toLower) = false

/-- An email the patterns capture exactly: nonempty, free of white-space, and
carrying an interior at sign. -/
@[reducible] def goodEmail (em : List Char) : Prop :=
  em ≠ [] ∧ (∀ c ∈ em, jsWS c = false) ∧ emailTok em = true

/-- A contributor whose generated line the parser reads back under the given
configuration: good name and email, and a name short enough that the email
column leaves a gap of at least two spaces after it. -/
@[reducible] def goodContrib (cfg : ResolvedConfig) (c : Contributor) : Prop :=
  goodName c.name.data ∧ goodEmail c.email.data ∧
    cfg.nameColumn + c.name.length + 2 ≤ cfg.emailColumn

theorem contrib_eta (c : Contributor) : (⟨c.name, c.email⟩ : Contributor) = c := rfl

theorem contLine_full (cfg : ResolvedConfig) (hpre : cfg.commentPrefix = "//")
    (hncol : 27 ≤ cfg.nameColumn) (c : Contributor) (hg : goodContrib cfg c) :
    isSeparator (formatCopyrightLine cfg "" c.name c.email) = false ∧
      matchCopyright (formatCopyrightLine cfg "" c.name c.email) = none ∧
      matchContributor (formatCopyrightLine cfg "" c.name c.email) =
        some (c.name, c.email) ∧
      '\n' ∉ (formatCopyrightLine cfg "" c.name c.email).data := by
  obtain ⟨⟨hne, hdot, hat, hhead, hlast, hcpre⟩, ⟨hene, hws, htok⟩, hcol⟩ := hg
  have h22 : ("//" : String).length = 2 := by decide
  have hif : formatCopyrightLine cfg "" c.name c.email =
      formatLine [⟨"//", 0⟩, ⟨c.name, cfg.nameColumn⟩, ⟨c.email, cfg.emailColumn⟩] := by
    simp only [formatCopyrightLine, hpre]
    rw [if_neg (by simp)]
  have h1 : ((("//" : String)).length : Int) < cfg.nameColumn := by
    rw [h22]; omega
  have hdata := copyLine_data "//" c.name c.email cfg.nameColumn cfg.emailColumn h1 hcol
  have hsl : ("//" : String).data = ['/', '/'] := by decide
  rw [hsl] at hdata
  have hdata' : (formatCopyrightLine cfg "" c.name c.email).data =
      '/' :: '/' ::
        (List.replicate (cfg.nameColumn - (("//" : String).length : Int)).toNat ' ' ++
          (c.name.data ++
            (List.replicate
              (cfg.emailColumn - cfg.nameColumn - (c.name.length : Int)).toNat ' ' ++
              c.email.data))) := by
    rw [hif, hdata]
    rfl
  have hp1 : 10 ≤ (cfg.nameColumn - (("//" : String).length : Int)).toNat := by
    rw [h22]; omega
  have hp2 : 2 ≤ (cfg.emailColumn - cfg.nameColumn - (c.name.length : Int)).toNat := by
    omega
  obtain ⟨hmc, hmcon⟩ := contLine_matchers c.name.data c.email.data _ _ _ hdata'
    hp1 hp2 hne hdot hat hhead hlast hcpre hene hws htok
  rw [strMk_data, strMk_data] at hmcon
  refine ⟨?_, hmc, hmcon, ?_⟩
  · obtain ⟨k, hk⟩ : ∃ k, (cfg.nameColumn - (("//" : String).length : Int)).toNat = k + 1 :=
      ⟨(cfg.nameColumn - (("//" : String).length : Int)).toNat - 1, by omega⟩
    rw [hk, List.replicate_succ] at hdata'
    exact isSeparator_false_of_space _
      (List.replicate k ' ' ++ (c.name.data ++
        (List.replicate (cfg.emailColumn - cfg.nameColumn - (c.name.length : Int)).toNat ' ' ++
          c.email.data)))
      (by rw [hdata', List.cons_append])
  · rw [hdata']
    intro hmem
    simp only [List.mem_cons, List.mem_append] at hmem
    rcases hmem with h | h | hmem
    · exact absurd h (by decide)
    · exact absurd h (by decide)
    · rcases hmem with h | h | h | h
      · exact absurd (mem_replicate_space h) (by decide)
      · exact noNL_name hdot h
      · exact absurd (mem_replicate_space h) (by decide)
      · exact noNL_email hws h

theorem natStr_len4 (y : Nat) (h1 : 1000 ≤ y) (h2 : y ≤ 9999) : (natStr y).length = 4 := by
  rw [strLength_data]
  show (natToDecimal y).length = 4
  rw [natToDecimal_four y h1 h2]
  rfl

theorem copyLineSingle_full (cfg : ResolvedConfig) (hpre : cfg.commentPrefix = "//")
    (hncol : 27 ≤ cfg.nameColumn) (c : Contributor) (hg : goodContrib cfg c)
    (y1 : Nat) (hy1l : 1000 ≤ y1) (hy1h : y1 ≤ 9999) :
    isSeparator (formatCopyrightLine cfg (natStr y1) c.name c.email) = false ∧
      matchCopyright (formatCopyrightLine cfg (natStr y1) c.name c.email) =
        some (y1, none, c.name, c.email) ∧
      '\n' ∉ (formatCopyrightLine cfg (natStr y1) c.name c.email).data := by
  obtain ⟨⟨hne, hdot, hat, hhead, hlast, _⟩, ⟨hene, hws, htok⟩, hcol⟩ := hg
  have hy4 := natStr_len4 y1 hy1l hy1h
  have hypne : natStr y1 ≠ "" := by
    intro h
    have hlen := congrArg String.length h
    rw [hy4] at hlen
    have h0 : ("" : String).length = 0 := rfl
    rw [h0] at hlen
    omega
  have hif : formatCopyrightLine cfg (natStr y1) c.name c.email =
      formatLine [⟨"//" ++ " Copyright (c) " ++ natStr y1, 0⟩,
        ⟨c.name, cfg.nameColumn⟩, ⟨c.email, cfg.emailColumn⟩] := by
    simp only [formatCopyrightLine, hpre]
    rw [if_pos hypne]
  have hc0len : ("//" ++ " Copyright (c) " ++ natStr y1).length = 21 := by
    rw [strLength_append, strLength_append, hy4]
    have ha : ("//" : String).length = 2 := by decide
    have hb : (" Copyright (c) " : String).length = 15 := by decide
    rw [ha, hb]
  have h1 : ((("//" ++ " Copyright (c) " ++ natStr y1) : String).length : Int) <
      cfg.nameColumn := by
    rw [hc0len]; omega
  have hdata := copyLine_data ("//" ++ " Copyright (c) " ++ natStr y1) c.name c.email
    cfg.nameColumn cfg.emailColumn h1 hcol
  have hc0data : ("//" ++ " Copyright (c) " ++ natStr y1).data =
      "// Copyright (c) ".data ++ natToDecimal y1 := by
    rw [strData_append]
    have hlit : ("//" ++ " Copyright (c) " : String).data = "// Copyright (c) ".data := by
      decide
    rw [hlit]
    rfl
  rw [hc0data] at hdata
  have hline : (formatCopyrightLine cfg (natStr y1) c.name c.email).data =
      "// Copyright (c) ".data ++ natToDecimal y1 ++
        (List.replicate
            (cfg.nameColumn - (("//" ++ " Copyright (c) " ++ natStr y1).length : Int)).toNat
            ' ' ++
          (c.name.data ++
            (List.replicate
                (cfg.emailColumn - cfg.nameColumn - (c.name.length : Int)).toNat ' ' ++
              c.email.data))) := by
    rw [hif, hdata]
  have hp1 : 1 ≤
      (cfg.nameColumn - (("//" ++ " Copyright (c) " ++ natStr y1).length : Int)).toNat := by
    rw [hc0len]; omega
  have hp2 : 2 ≤ (cfg.emailColumn - cfg.nameColumn - (c.name.length : Int)).toNat := by
    omega
  have hmc := matchCopyright_single y1 c.name.data c.email.data _ _ _ hline hy1l hy1h
    hp1 hp2 hne hdot hat hhead hlast hene hws htok
  rw [strMk_data, strMk_data] at hmc
  have hlit4 : "// Copyright (c) ".data = '/' :: '/' :: ' ' :: "Copyright (c) ".data := by
    decide
  refine ⟨?_, hmc, ?_⟩
  · refine isSeparator_false_of_space _
      ("Copyright (c) ".data ++ natToDecimal y1 ++
        (List.replicate
            (cfg.nameColumn - (("//" ++ " Copyright (c) " ++ natStr y1).length : Int)).toNat
            ' ' ++
          (c.name.data ++
            (List.replicate
                (cfg.emailColumn - cfg.nameColumn - (c.name.length : Int)).toNat ' ' ++
              c.email.data)))) ?_
    rw [hline, hlit4]
    simp [List.append_assoc]
  · rw [hline]
    intro hmem
    simp only [List.mem_append] at hmem
    rcases hmem with (h | h) | hmem
    · exact absurd h (by decide)
    · exact noNL_year y1 hy1l hy1h h
    · rcases hmem with h | h | h | h
      · exact absurd (mem_replicate_space h) (by decide)
      · exact noNL_name hdot h
      · exact absurd (mem_replicate_space h) (by decide)
      · exact noNL_email hws h

theorem copyLineRange_full (cfg : ResolvedConfig) (hpre : cfg.commentPrefix = "//")
    (hncol : 27 ≤ cfg.nameColumn) (c : Contributor) (hg : goodContrib cfg c)
    (y1 y2 : Nat) (hy1l : 1000 ≤ y1) (hy1h : y1 ≤ 9999)
    (hy2l : 1000 ≤ y2) (hy2h : y2 ≤ 9999) :
    isSeparator (formatCopyrightLine cfg (natStr y1 ++ "-" ++ natStr y2) c.name c.email) =
        false ∧
      matchCopyright (formatCopyrightLine cfg (natStr y1 ++ "-" ++ natStr y2) c.name
          c.email) = some (y1, some y2, c.name, c.email) ∧
      '\n' ∉ (formatCopyrightLine cfg (natStr y1 ++ "-" ++ natStr y2) c.name c.email).data := by
  obtain ⟨⟨hne, hdot, hat, hhead, hlast, _⟩, ⟨hene, hws, htok⟩, hcol⟩ := hg
  have hy4a := natStr_len4 y1 hy1l hy1h
  have hy4b := natStr_len4 y2 hy2l hy2h
  have hyplen : (natStr y1 ++ "-" ++ natStr y2).length = 9 := by
    rw [strLength_append, strLength_append, hy4a, hy4b]
    rfl
  have hypne : natStr y1 ++ "-" ++ natStr y2 ≠ "" := by
    intro h
    have hlen := congrArg String.length h
    rw [hyplen] at hlen
    have h0 : ("" : String).length = 0 := rfl
    rw [h0] at hlen
    omega
  have hif : formatCopyrightLine cfg (natStr y1 ++ "-" ++ natStr y2) c.name c.email =
      formatLine [⟨"//" ++ " Copyright (c) " ++ (natStr y1 ++ "-" ++ natStr y2), 0⟩,
        ⟨c.name, cfg.nameColumn⟩, ⟨c.email, cfg.emailColumn⟩] := by
    simp only [formatCopyrightLine, hpre]
    rw [if_pos hypne]
  have hc0len : ("//" ++ " Copyright (c) " ++ (natStr y1 ++ "-" ++ natStr y2)).length =
      26 := by
    rw [strLength_append, hyplen]
    have hb : ("//" ++ " Copyright (c) " : String).length = 17 := by decide
    rw [hb]
  have h1 : ((("//" ++ " Copyright (c) " ++ (natStr y1 ++ "-" ++ natStr y2)) :
      String).length : Int) < cfg.nameColumn := by
    rw [hc0len]; omega
  have hdata := copyLine_data ("//" ++ " Copyright (c) " ++ (natStr y1 ++ "-" ++ natStr y2))
    c.name c.email cfg.nameColumn cfg.emailColumn h1 hcol
  have hc0data : ("//" ++ " Copyright (c) " ++ (natStr y1 ++ "-" ++ natStr y2)).data =
      "// Copyright (c) ".data ++ natToDecimal y1 ++ ('-' :: natToDecimal y2) := by
    rw [strData_append]
    have hlit : ("//" ++ " Copyright (c) " : String).data = "// Copyright (c) ".data := by
      decide
    rw [hlit]
    have hyp : (natStr y1 ++ "-" ++ natStr y2).data =
        natToDecimal y1 ++ ('-' :: natToDecimal y2) := by
      rw [strData_append, strData_append]
      have hm : ("-" : String).data = ['-'] := by decide
      rw [hm]
      simp only [List.append_assoc, List.singleton_append]
      rfl
    rw [hyp, List.append_assoc]
  rw [hc0data] at hdata
  have hline : (formatCopyrightLine cfg (natStr y1 ++ "-" ++ natStr y2) c.name c.email).data =
      "// Copyright (c) ".data ++ natToDecimal y1 ++
        ('-' :: (natToDecimal y2 ++
          (List.replicate (cfg.nameColumn -
              (("//" ++ " Copyright (c) " ++ (natStr y1 ++ "-" ++ natStr y2)).length :
                Int)).toNat ' ' ++
            (c.name.data ++
              (List.replicate
                  (cfg.emailColumn - cfg.nameColumn - (c.name.length : Int)).toNat ' ' ++
                c.email.data))))) := by
    rw [hif, hdata]
    simp [List.append_assoc]
  have hp1 : 1 ≤ (cfg.nameColumn -
      (("//" ++ " Copyright (c) " ++ (natStr y1 ++ "-" ++ natStr y2)).length :
        Int)).toNat := by
    rw [hc0len]; omega
  have hp2 : 2 ≤ (cfg.emailColumn - cfg.nameColumn - (c.name.length : Int)).toNat := by
    omega
  have hmc := matchCopyright_range y1 y2 c.name.data c.email.data _ _ _ hline hy1l hy1h
    hy2l hy2h hp1 hp2 hne hdot hat hhead hlast hene hws htok
  rw [strMk_data, strMk_data] at hmc
  have hlit4 : "// Copyright (c) ".data = '/' :: '/' :: ' ' :: "Copyright (c) ".data := by
    decide
  refine ⟨?_, hmc, ?_⟩
  · refine isSeparator_false_of_space _
      ("Copyright (c) ".data ++ (natToDecimal y1 ++
        ('-' :: (natToDecimal y2 ++
          (List.replicate (cfg.nameColumn -
              (("//" ++ " Copyright (c) " ++ (natStr y1 ++ "-" ++ natStr y2)).length :
                Int)).toNat ' ' ++
            (c.name.data ++
              (List.replicate
                  (cfg.emailColumn - cfg.nameColumn - (c.name.length : Int)).toNat ' ' ++
                c.email.data))))))) ?_
    rw [hline, hlit4]
    simp [List.append_assoc]
  · rw [hline]
    intro hmem
    simp only [List.mem_append, List.mem_cons] at hmem
    rcases hmem with (h | h) | h | hmem
    · exact absurd h (by decide)
    · exact noNL_year y1 hy1l hy1h h
    · exact absurd h (by decide)
    · rcases hmem with h | hmem
      · exact noNL_year y2 hy2l hy2h h
      · rcases hmem with h | h | h | h
        · exact absurd (mem_replicate_space h) (by decide)
        · exact noNL_name hdot h
        · exact absurd (mem_replicate_space h) (by decide)
        · exact noNL_email hws h

theorem append_singleton_append {α : Type} (a : List α) (x : α) (y : List α) :
    (a ++ [x]) ++ y = a ++ x :: y := by
  simp

theorem scanLines_contribs (cfg : ResolvedConfig) (hpre : cfg.commentPrefix = "//")
    (hncol : 27 ≤ cfg.nameColumn) :
    ∀ (cs : List Contributor), (∀ c ∈ cs, goodContrib cfg c) →
    ∀ (tail : List String) (i : Nat) (st : ScanState),
      scanLines ((cs.map fun c => formatCopyrightLine cfg "" c.name c.email) ++ tail) i st =
        scanLines tail (i + cs.length) ⟨st.yearStart, st.yearEnd, st.contributors ++ cs,
          st.spdxLicense, st.licenseUrl, st.maintainerEmail⟩ := by
  intro cs
  induction cs with
  | nil => intro _ tail i st; simp
  | cons c cs' ih =>
    intro hall tail i st
    obtain ⟨hsep, hmc, hmcon, _⟩ := contLine_full cfg hpre hncol c (hall c (by simp))
    rw [List.map_cons, List.cons_append]
    rw [scanLines, if_neg (by simp [hsep]), hmc]
    simp only []
    rw [hmcon]
    simp only []
    rw [ih (fun x hx => hall x (by simp [hx])) tail (i + 1)]
    have hi : i + 1 + cs'.length = i + (c :: cs').length := by
      simp only [List.length_cons]
      omega
    rw [hi]
    have hst : (⟨st.yearStart, st.yearEnd, st.contributors ++ [⟨c.name, c.email⟩] ++ cs',
        st.spdxLicense, st.licenseUrl, st.maintainerEmail⟩ : ScanState) =
        ⟨st.yearStart, st.yearEnd, st.contributors ++ c :: cs',
          st.spdxLicense, st.licenseUrl, st.maintainerEmail⟩ := by
      rw [append_singleton_append, contrib_eta]
    rw [← hst]

theorem scanLines_tail (cfg : ResolvedConfig) (hpre : cfg.commentPrefix = "//")
    (hncol : 27 ≤ cfg.nameColumn) (huc : 0 ≤ cfg.licenseUrlColumn)
    (hmc : 0 ≤ cfg.maintainerColumn) (hw : 3 ≤ cfg.width)
    (hsc : cfg.separatorChar.data ≠ [])
    (hscc : ∀ c ∈ cfg.separatorChar.data, c = '-' ∨ c = '=' ∨ c = '*')
    (more : List Contributor) (hmore : ∀ c ∈ more, goodContrib cfg c)
    (i : Nat) (st : ScanState) :
    ∃ st2 : ScanState,
      scanLines ((more.map fun c => formatCopyrightLine cfg "" c.name c.email) ++
          [formatSpdxLine cfg,
            generateSeparator cfg.width cfg.separatorChar cfg.commentPrefix]) i st =
        some (i + more.length + 2, st2) ∧
      st2.yearStart = st.yearStart ∧ st2.yearEnd = st.yearEnd ∧
      st2.contributors = st.contributors ++ more := by
  rw [scanLines_contribs cfg hpre hncol more hmore _ i st]
  obtain ⟨t, hts⟩ := spdxLine_shape cfg hpre huc hmc
  obtain ⟨hs1, hs2, hs3⟩ := spdx_line_matchers _ t hts
  have hsepT : isSeparator (generateSeparator cfg.width cfg.separatorChar
      cfg.commentPrefix) = true := by
    rw [hpre]
    exact (generateSeparator_sep cfg.width cfg.separatorChar hw hsc hscc).1
  rw [scanLines, if_neg (by simp [hs1]), hs2]
  simp only []
  rw [hs3]
  simp only []
  have h11 : i + more.length + 1 + 1 = i + more.length + 2 := by omega
  match hsp : matchSpdx (formatSpdxLine cfg) with
  | none =>
    simp only []
    refine ⟨⟨st.yearStart, st.yearEnd, st.contributors ++ more, st.spdxLicense,
      st.licenseUrl, st.maintainerEmail⟩, ?_, rfl, rfl, rfl⟩
    rw [scanLines, if_pos hsepT, h11]
  | some (lic, url, mail) =>
    simp only []
    refine ⟨⟨st.yearStart, st.yearEnd, st.contributors ++ more, some lic, url, mail⟩,
      ?_, rfl, rfl, rfl⟩
    rw [scanLines, if_pos hsepT, h11]

theorem parse_assembled (cfg : ResolvedConfig) (hpre : cfg.commentPrefix = "//")
    (hncol : 27 ≤ cfg.nameColumn) (huc : 0 ≤ cfg.licenseUrlColumn)
    (hmc : 0 ≤ cfg.maintainerColumn) (hw : 3 ≤ cfg.width)
    (hsc : cfg.separatorChar.data ≠ [])
    (hscc : ∀ ch ∈ cfg.separatorChar.data, ch = '-' ∨ ch = '=' ∨ ch = '*')
    (hnl1 : '\n' ∉ cfg.spdxLicense.data) (hnl2 : '\n' ∉ cfg.licenseUrl.data)
    (hnl3 : '\n' ∉ cfg.maintainerEmail.data)
    (line0 : String) (y1 y2 : Nat) (c0 : Contributor) (yopt : Option Nat)
    (hyend : (match yopt with | some y => y | none => y1) = y2)
    (hsep0 : isSeparator line0 = false)
    (hmc0 : matchCopyright line0 = some (y1, yopt, c0.name, c0.email))
    (hnl0 : '\n' ∉ line0.data)
    (more : List Contributor) (hmore : ∀ c ∈ more, goodContrib cfg c) :
    ∃ ph, parseHeader (joinLines
        (generateSeparator cfg.width cfg.separatorChar cfg.commentPrefix :: line0 ::
          ((more.map fun c => formatCopyrightLine cfg "" c.name c.email) ++
            [formatSpdxLine cfg,
              generateSeparator cfg.width cfg.separatorChar cfg.commentPrefix]))) =
        some ph ∧
      ph.yearStart = y1 ∧ ph.yearEnd = y2 ∧ ph.contributors = c0 :: more := by
  have hsepfacts := generateSeparator_sep cfg.width cfg.separatorChar hw hsc hscc
  have hsepT : isSeparator (generateSeparator cfg.width cfg.separatorChar
      cfg.commentPrefix) = true := by rw [hpre]; exact hsepfacts.1
  have hsepNL : '\n' ∉ (generateSeparator cfg.width cfg.separatorChar
      cfg.commentPrefix).data := by rw [hpre]; exact hsepfacts.2
  have hspdxNL : '\n' ∉ (formatSpdxLine cfg).data := by
    simp only [formatSpdxLine, hpre]
    refine formatLine_no_newline _ ?_
    intro col hcol
    simp only [List.mem_cons, List.not_mem_nil, or_false] at hcol
    rcases hcol with rfl | rfl | rfl
    · intro hmem
      rw [strData_append] at hmem
      rcases List.mem_append.mp hmem with h | h
      · exact absurd h (by decide)
      · exact hnl1 h
    · exact hnl2
    · exact hnl3
  have hlines : ∀ l ∈ (generateSeparator cfg.width cfg.separatorChar cfg.commentPrefix ::
      line0 :: ((more.map fun c => formatCopyrightLine cfg "" c.name c.email) ++
        [formatSpdxLine cfg,
          generateSeparator cfg.width cfg.separatorChar cfg.commentPrefix])),
      '\n' ∉ l.data := by
    intro l hl
    simp only [List.mem_cons, List.mem_append, List.mem_map, List.not_mem_nil,
      or_false] at hl
    rcases hl with rfl | rfl | ⟨c, hc, rfl⟩ | rfl | rfl
    · exact hsepNL
    · exact hnl0
    · exact (contLine_full cfg hpre hncol c (hmore c hc)).2.2.2
    · exact hspdxNL
    · exact hsepNL
  rw [parseHeader, strLines_join _ (by simp) hlines, parseHeaderLines]
  rw [if_neg (by simp [hsepT])]
  rw [scanLines, if_neg (by simp [hsep0]), hmc0]
  simp only []
  obtain ⟨st2, hscan, hys, hye, hcontrib⟩ :=
    scanLines_tail cfg hpre hncol huc hmc hw hsc hscc more hmore (1 + 1) _
  rw [hscan]
  simp only []
  refine ⟨_, rfl, ?_, ?_, ?_⟩
  · show st2.yearStart = y1
    rw [hys]
  · show st2.yearEnd = y2
    rw [hye]
    exact hyend
  · show st2.contributors = c0 :: more
    rw [hcontrib]
    show ([] ++ [(⟨c0.name, c0.email⟩ : Contributor)]) ++ more = c0 :: more
    simp

set_option maxRecDepth 100000 in
/-- Claim C1, counterexample. The claim asserts the round-trip for every
resolved configuration; with a configuration whose separator fill string is
the letter x the generated separator lines are two slashes followed by x
characters, which the separator pattern (two slashes then one or more of
minus, equals, asterisk) rejects, so parseHeader returns null and no parsed
header exists at all. -/
theorem generateHeader_roundtrip_cex :
    parseHeader (generateHeader
      ⟨4, "x", "//", 40, 65, 40, 75, "MIT", "", "", 3, ContributorSelection.commits,
        [], [], []⟩
      [⟨"Ann Doe", "ann@x.io"⟩] 2025 (some 2025)) = none := by
  decide

/-- Claim C1, amended with the side conditions under which the source does
round-trip: the comment prefix is the two slashes the parser's patterns are
anchored on, the separator fill string is nonempty and drawn from minus,
equals, asterisk, the width is at least 3, the name column is at least 27
(past the longest fixed copyright prelude), the URL and maintainer columns
are nonnegative, at least one contributor is kept, both years have four
digits, the contributor list is nonempty, every displayed contributor has a
good name (nonempty, dot-matched characters, no at sign, non-white-space
ends, not starting with the word copyright case-insensitively) and a good
email (nonempty, no white-space, interior at sign) and fits before the email
column with a gap of at least two, and the configured license strings carry
no newline. Then parseHeader of generateHeader succeeds and recovers the
year range and exactly the first maxContributors contributors, in order. -/
theorem generateHeader_parse_roundtrip (cfg : ResolvedConfig) (cs : List Contributor)
    (y1 y2 : Nat)
    (hpre : cfg.commentPrefix = "//")
    (hsc : cfg.separatorChar.data ≠ [])
    (hscc : ∀ ch ∈ cfg.separatorChar.data, ch = '-' ∨ ch = '=' ∨ ch = '*')
    (hw : 3 ≤ cfg.width)
    (hncol : 27 ≤ cfg.nameColumn)
    (huc : 0 ≤ cfg.licenseUrlColumn) (hmc : 0 ≤ cfg.maintainerColumn)
    (hmax : 1 ≤ cfg.maxContributors)
    (hy1l : 1000 ≤ y1) (hy1h : y1 ≤ 9999) (hy2l : 1000 ≤ y2) (hy2h : y2 ≤ 9999)
    (hcs : cs ≠ [])
    (hgood : ∀ c ∈ cs.take cfg.maxContributors, goodContrib cfg c)
    (hnl1 : '\n' ∉ cfg.spdxLicense.data) (hnl2 : '\n' ∉ cfg.licenseUrl.data)
    (hnl3 : '\n' ∉ cfg.maintainerEmail.data) :
    ∃ ph, parseHeader (generateHeader cfg cs y1 (some y2)) = some ph ∧
      ph.yearStart = y1 ∧ ph.yearEnd = y2 ∧
      ph.contributors = cs.take cfg.maxContributors := by
  obtain ⟨c0, cs', rfl⟩ : ∃ c0 cs', cs = c0 :: cs' := by
    match cs, hcs with
    | c :: l, _ => exact ⟨c, l, rfl⟩
  obtain ⟨m, hm⟩ : ∃ m, cfg.maxContributors = m + 1 :=
    ⟨cfg.maxContributors - 1, by omega⟩
  have htake : (c0 :: cs').take cfg.maxContributors = c0 :: cs'.take m := by
    rw [hm, List.take_succ_cons]
  have hg0 : goodContrib cfg c0 := hgood c0 (by rw [htake]; simp)
  have hgm : ∀ c ∈ cs'.take m, goodContrib cfg c := fun c hc =>
    hgood c (by rw [htake]; simp [hc])
  rw [htake]
  by_cases hyy : y1 = y2
  · have hgen : generateHeader cfg (c0 :: cs') y1 (some y2) =
        joinLines (generateSeparator cfg.width cfg.separatorChar cfg.commentPrefix ::
          formatCopyrightLine cfg (natStr y1) c0.name c0.email ::
          (((cs'.take m).map fun c => formatCopyrightLine cfg "" c.name c.email) ++
            [formatSpdxLine cfg,
              generateSeparator cfg.width cfg.separatorChar cfg.commentPrefix])) := by
      simp only [generateHeader, Option.getD]
      rw [htake]
      simp only []
      rw [if_pos hyy]
      simp only [List.cons_append, List.nil_append]
    obtain ⟨hsep0, hmc0, hnl0⟩ := copyLineSingle_full cfg hpre hncol c0 hg0 y1 hy1l hy1h
    rw [hgen]
    exact parse_assembled cfg hpre hncol huc hmc hw hsc hscc hnl1 hnl2 hnl3
      (formatCopyrightLine cfg (natStr y1) c0.name c0.email) y1 y2 c0 none
      (by simp only []; exact hyy) hsep0 hmc0 hnl0 (cs'.take m) hgm
  · have hgen : generateHeader cfg (c0 :: cs') y1 (some y2) =
        joinLines (generateSeparator cfg.width cfg.separatorChar cfg.commentPrefix ::
          formatCopyrightLine cfg (natStr y1 ++ "-" ++ natStr y2) c0.name c0.email ::
          (((cs'.take m).map fun c => formatCopyrightLine cfg "" c.name c.email) ++
            [formatSpdxLine cfg,
              generateSeparator cfg.width cfg.separatorChar cfg.commentPrefix])) := by
      simp only [generateHeader, Option.getD]
      rw [htake]
      simp only []
      rw [if_neg hyy]
      simp only [List.cons_append, List.nil_append]
    obtain ⟨hsep0, hmc0, hnl0⟩ := copyLineRange_full cfg hpre hncol c0 hg0 y1 y2
      hy1l hy1h hy2l hy2h
    rw [hgen]
    exact parse_assembled cfg hpre hncol huc hmc hw hsc hscc hnl1 hnl2 hnl3
      (formatCopyrightLine cfg (natStr y1 ++ "-" ++ natStr y2) c0.name c0.email) y1 y2 c0
      (some y2) rfl hsep0 hmc0 hnl0 (cs'.take m) hgm

/-- Witness for the amended claim C1: under the repository's default
configuration the header generated for one contributor with the year range
2020 to 2025 parses back to that year range and that contributor. -/
theorem generateHeader_parse_roundtrip_witness :
    (∀ c ∈ ([⟨"Ann Doe", "ann@x.io"⟩] : List Contributor).take defaultCfg.maxContributors,
        goodContrib defaultCfg c) ∧
      ∃ ph, parseHeader (generateHeader defaultCfg [⟨"Ann Doe", "ann@x.io"⟩] 2020
          (some 2025)) = some ph ∧
        ph.yearStart = 2020 ∧ ph.yearEnd = 2025 ∧
        ph.contributors =
          ([⟨"Ann Doe", "ann@x.io"⟩] : List Contributor).take defaultCfg.maxContributors :=
  ⟨by decide,
   generateHeader_parse_roundtrip defaultCfg [⟨"Ann Doe", "ann@x.io"⟩] 2020 2025
     rfl (by decide) (by decide) (by decide) (by decide) (by decide) (by decide)
     (by decide) (by decide) (by decide) (by decide) (by decide) (by decide)
     (by decide) (by decide) (by decide) (by decide)⟩

end Ante